import Mathlib

/-!
The plugin `src/sensors.c` of collectd: label classification, selection filter, feature
catalog and scan cycle.

A shallow embedding of the lm_sensors plugin of collectd (`src/sensors.c`).

Conventions of the embedding

* A C string is the list of its characters before the terminating NUL (`CStr`);
  no character of such a list is NUL.
* `snprintf` is represented by the string it would write without truncation; its
  return value is the length of that string (lengths stay far below `INT_MAX`).
* The singly linked list `first_feature` lives in an explicit heap of
  `featurelist_t` nodes (`State`); address `0` is `NULL`.  Reading through a pointer
  that is `NULL` or has been freed is undefined behaviour and is reported as a
  `Fault`.  Loops that follow `next` pointers take a `fuel` argument; the theorems
  show that a fuel above the length of the list is enough.
* lm_sensors (the provider), `malloc`, the clock and the formatting of a `double` are
  represented by the answers they give to the calls the plugin makes (`Env`); the
  constants of `<sensors/sensors.h>` that the plugin compares against are fields of
  that structure.
* `double` values are opaque: the plugin only moves them from `sensors_get_feature`
  to `snprintf`.
-/

namespace Sensors

/-! ## C strings -/

/-- A C string: the characters before the terminating NUL. -/
abbrev CStr := List Char

/-- The sign that a comparison function of `<string.h>` returns for two characters that
differ (the C standard fixes the sign of the result only). -/
def cmpSign (a b : Char) : Int :=
  if a.toNat < b.toNat then -1 else 1

/-- The libc function `strncmp (s1, s2, n)`: compares at most `n` characters; the result
is zero iff no difference is found.  A string that ends first is followed by its NUL,
which is smaller than every character of a C string. -/
def strncmp : CStr → CStr → Nat → Int
  | _, _, 0 => 0
  | [], [], _ + 1 => 0
  | [], _ :: _, _ + 1 => -1
  | _ :: _, [], _ + 1 => 1
  | a :: s1, b :: s2, n + 1 =>
    if a = b then strncmp s1 s2 n else cmpSign a b

/-- The libc function `tolower` in the C locale: only `A`..`Z` are mapped. -/
def tolower (c : Char) : Char :=
  if 'A'.toNat ≤ c.toNat ∧ c.toNat ≤ 'Z'.toNat then Char.ofNat (c.toNat + 32) else c

/-- The libc function `strcasecmp (s1, s2)`: compares the two strings after `tolower`
on every character; the result is zero iff they agree. -/
def strcasecmp : CStr → CStr → Int
  | [], [] => 0
  | [], _ :: _ => -1
  | _ :: _, [] => 1
  | a :: s1, b :: s2 =>
    if tolower a = tolower b then strcasecmp s1 s2
    else cmpSign (tolower a) (tolower b)

/-! ## Constants and tables (`sensors.c` lines 52-145) -/

def BUFSIZE : Nat := 512

def SENSOR_TYPE_UNKNOWN : Int := 0
def SENSOR_TYPE_VOLTAGE : Int := 1
def SENSOR_TYPE_FANSPEED : Int := 2
def SENSOR_TYPE_TEMPERATURE : Int := 3

/-- The array `sensor_type_prefix[]`; the fifth element of the C array is `NULL`,
represented here by the end of the list. -/
def sensor_type_prefix : List CStr :=
  [ "/unknown".toList,
    "/voltage".toList,
    "/fanspeed".toList,
    "/temperature".toList ]

/-- An element of `known_features[]`. -/
structure sensors_labeltypes where
  label : CStr
  type : Int
  deriving DecidableEq, Repr

/-- The array `known_features[]`, in source order, terminator `{ 0, -1 }` included
(its `NULL` label, which is never read, is the empty list). -/
def known_features : List sensors_labeltypes :=
  [ ⟨"fan7".toList, SENSOR_TYPE_FANSPEED⟩,
    ⟨"fan6".toList, SENSOR_TYPE_FANSPEED⟩,
    ⟨"fan5".toList, SENSOR_TYPE_FANSPEED⟩,
    ⟨"fan4".toList, SENSOR_TYPE_FANSPEED⟩,
    ⟨"fan3".toList, SENSOR_TYPE_FANSPEED⟩,
    ⟨"fan2".toList, SENSOR_TYPE_FANSPEED⟩,
    ⟨"fan1".toList, SENSOR_TYPE_FANSPEED⟩,
    ⟨"in8".toList, SENSOR_TYPE_VOLTAGE⟩,
    ⟨"in7".toList, SENSOR_TYPE_VOLTAGE⟩,
    ⟨"in6".toList, SENSOR_TYPE_VOLTAGE⟩,
    ⟨"in5".toList, SENSOR_TYPE_VOLTAGE⟩,
    ⟨"in4".toList, SENSOR_TYPE_VOLTAGE⟩,
    ⟨"in3".toList, SENSOR_TYPE_VOLTAGE⟩,
    ⟨"in2".toList, SENSOR_TYPE_VOLTAGE⟩,
    ⟨"in0".toList, SENSOR_TYPE_VOLTAGE⟩,
    ⟨"remote_temp".toList, SENSOR_TYPE_TEMPERATURE⟩,
    ⟨"temp7".toList, SENSOR_TYPE_TEMPERATURE⟩,
    ⟨"temp6".toList, SENSOR_TYPE_TEMPERATURE⟩,
    ⟨"temp5".toList, SENSOR_TYPE_TEMPERATURE⟩,
    ⟨"temp4".toList, SENSOR_TYPE_TEMPERATURE⟩,
    ⟨"temp3".toList, SENSOR_TYPE_TEMPERATURE⟩,
    ⟨"temp2".toList, SENSOR_TYPE_TEMPERATURE⟩,
    ⟨"temp1".toList, SENSOR_TYPE_TEMPERATURE⟩,
    ⟨"temp".toList, SENSOR_TYPE_TEMPERATURE⟩,
    ⟨"Vccp2".toList, SENSOR_TYPE_VOLTAGE⟩,
    ⟨"Vccp1".toList, SENSOR_TYPE_VOLTAGE⟩,
    ⟨"vdd".toList, SENSOR_TYPE_VOLTAGE⟩,
    ⟨"vid4".toList, SENSOR_TYPE_VOLTAGE⟩,
    ⟨"vid3".toList, SENSOR_TYPE_VOLTAGE⟩,
    ⟨"vid2".toList, SENSOR_TYPE_VOLTAGE⟩,
    ⟨"vid1".toList, SENSOR_TYPE_VOLTAGE⟩,
    ⟨"vid".toList, SENSOR_TYPE_VOLTAGE⟩,
    ⟨"vin4".toList, SENSOR_TYPE_VOLTAGE⟩,
    ⟨"vin3".toList, SENSOR_TYPE_VOLTAGE⟩,
    ⟨"vin2".toList, SENSOR_TYPE_VOLTAGE⟩,
    ⟨"vin1".toList, SENSOR_TYPE_VOLTAGE⟩,
    ⟨"voltbatt".toList, SENSOR_TYPE_VOLTAGE⟩,
    ⟨"volt12".toList, SENSOR_TYPE_VOLTAGE⟩,
    ⟨"volt5".toList, SENSOR_TYPE_VOLTAGE⟩,
    ⟨"vrm".toList, SENSOR_TYPE_VOLTAGE⟩,
    ⟨"12V".toList, SENSOR_TYPE_VOLTAGE⟩,
    ⟨"2.5V".toList, SENSOR_TYPE_VOLTAGE⟩,
    ⟨"3.3V".toList, SENSOR_TYPE_VOLTAGE⟩,
    ⟨"5V".toList, SENSOR_TYPE_VOLTAGE⟩,
    ⟨[], -1⟩ ]

/-! ## Label classification (the `known_features` loop of `collectd_sensors_init`) -/

/-- The loop `i = 0; while (known_features[i].type >= 0) { if (strncmp (name,
known_features[i].label, strlen (known_features[i].label)) == 0) ...break; i++; }`
run over the remaining table `tbl`, which starts at index `i`: the index at which the
`if` fires, or `none` when the loop ends at an element of negative type. -/
def known_features_scan (name : CStr) : List sensors_labeltypes → Nat → Option Nat
  | [], _ => none
  | e :: rest, i =>
    if e.type ≥ 0 then
      if strncmp name e.label e.label.length = 0 then some i
      else known_features_scan name rest (i + 1)
    else none

/-- The index of the element of `known_features` selected for the raw label `name`. -/
def classify_index (name : CStr) : Option Nat :=
  known_features_scan name known_features 0

/-- The category assigned to a raw label: `known_features[i].type` at the selected
index. -/
def classify (name : CStr) : Option Int :=
  (classify_index name).bind fun i => (known_features.get? i).map fun e => e.type

/-- The element of `known_features` selected for the raw label `name`. -/
def classify_rule (name : CStr) : Option sensors_labeltypes :=
  (classify_index name).bind fun i => known_features.get? i

/-- The rules of the table: the elements of `known_features` before the terminator. -/
def known_rules : List sensors_labeltypes :=
  known_features.takeWhile fun e => decide (e.type ≥ 0)

/-! ## Plugin configuration and the selection filter (lines 157-248) -/

/-- The configuration globals: `sensor_list` (with `sensor_list_num` its length),
`sensor_list_action` and `sensor_extended_naming`. -/
structure Config where
  sensor_list : List CStr
  sensor_list_action : Int
  sensor_extended_naming : Int
  deriving DecidableEq, Repr

/-- The `for` loop of `config_get_ignored` over the remaining entries of `sensor_list`. -/
def config_get_ignored_loop (action : Int) (inst : CStr) : List CStr → Int
  | [] => 1 - action
  | s :: rest =>
    if strcasecmp inst s = 0 then action
    else config_get_ignored_loop action inst rest

/-- The function `config_get_ignored (inst)`: nonzero means "skip this feature". -/
def config_get_ignored (cfg : Config) (inst : CStr) : Int :=
  if (cfg.sensor_list.length : Int) < 1 then 0
  else config_get_ignored_loop cfg.sensor_list_action inst cfg.sensor_list

/-- The selection filter of the specification: `isAccepted (x, list)` is
`config_get_ignored (x) == 0`. -/
def isAccepted (cfg : Config) (inst : CStr) : Bool :=
  decide (config_get_ignored cfg inst = 0)

/-- The configuration holding `list` with the invert flag `invert` (the values `0` and
`1` of `sensor_list_action`) and the naming flag `naming`. -/
def mkConfig (list : List CStr) (invert : Bool) (naming : Int) : Config :=
  ⟨list, if invert then 1 else 0, naming⟩

/-- Equality of two strings ignoring ASCII case, in the words of the specification. -/
def eqIgnoreCase (a b : CStr) : Prop :=
  a.map tolower = b.map tolower

instance (a b : CStr) : Decidable (eqIgnoreCase a b) := by
  unfold eqIgnoreCase; infer_instance

/-- The test `strcasecmp (value, "True") == 0 || strcasecmp (value, "Yes") == 0 ||
strcasecmp (value, "On") == 0` of `sensors_config`. -/
def is_true_value (value : CStr) : Bool :=
  decide (strcasecmp value "True".toList = 0) || decide (strcasecmp value "Yes".toList = 0)
    || decide (strcasecmp value "On".toList = 0)

/-- The function `sensors_config (key, value)`: the configuration after the call and the
value returned.  `realloc_ok` and `strdup_ok` tell whether the two allocations of the
`Sensor` branch succeed. -/
def sensors_config (realloc_ok strdup_ok : Bool) (cfg : Config) (key value : CStr) :
    Config × Int :=
  if strcasecmp key "Sensor".toList = 0 then
    if realloc_ok = false then (cfg, 1)
    else if strdup_ok = false then (cfg, 1)
    else ({ cfg with sensor_list := cfg.sensor_list ++ [value] }, 0)
  else if strcasecmp key "IgnoreSelected".toList = 0 then
    if is_true_value value = true then ({ cfg with sensor_list_action := 1 }, 0)
    else ({ cfg with sensor_list_action := 0 }, 0)
  else if strcasecmp key "ExtendedSensorNaming".toList = 0 then
    if is_true_value value = true then ({ cfg with sensor_extended_naming := 1 }, 0)
    else ({ cfg with sensor_extended_naming := 0 }, 0)
  else (cfg, -1)

/-! ## `printf` conversions used by `sensors_read` -/

/-- The digits of `n` in base `b`, least significant first (`fuel` bounds the number
of digits produced; `n + 1` is always enough for `b ≥ 2`). -/
def digitsRev (b : Nat) : Nat → Nat → List Nat
  | 0, _ => []
  | fuel + 1, n => if n < b then [n] else (n % b) :: digitsRev b fuel (n / b)

/-- The character printed for the digit `d` (`0`-`9`, then lowercase `a`-`f`). -/
def digitChar (d : Nat) : Char :=
  if d < 10 then Char.ofNat (48 + d) else Char.ofNat (87 + d)

/-- The numeral of `n` in base `b`, most significant digit first. -/
def numeral (b n : Nat) : CStr :=
  ((digitsRev b (n + 1) n).reverse).map digitChar

/-- Left padding with `0` up to the minimum field width `w` (the flag `0` of `printf`);
a longer numeral is left as it is. -/
def zeroPad (w : Nat) (s : CStr) : CStr :=
  List.replicate (w - s.length) '0' ++ s

/-- The conversion `%0<w>x` applied to an `int`: the argument is read as an
`unsigned int` (modulo `2 ^ 32`) and printed in lowercase hexadecimal with minimum
width `w`. -/
def fmt_0x (w : Nat) (v : Int) : CStr :=
  zeroPad w (numeral 16 (v % 2 ^ 32).toNat)

/-- The conversion `%d` applied to an `int`. -/
def fmt_d (v : Int) : CStr :=
  if v < 0 then '-' :: numeral 10 (-v).toNat else numeral 10 v.toNat

/-- The value of a digit character (`0`-`9`, `a`-`f`). -/
def digitValue (c : Char) : Nat :=
  if 97 ≤ c.toNat then c.toNat - 87 else c.toNat - 48

/-- The number that a numeral denotes in base `b`. -/
def numeralValue (b : Nat) (s : CStr) : Nat :=
  s.foldl (fun acc c => acc * b + digitValue c) 0

/-! ## The provider and the rest of the environment -/

/-- The fields of `sensors_chip_name` that the plugin reads (`prefix_` is the C field
`prefix`). -/
structure sensors_chip_name where
  prefix_ : CStr
  bus : Int
  addr : Int
  busname : CStr
  deriving DecidableEq, Repr

/-- The fields of `sensors_feature_data` that the plugin reads. -/
structure sensors_feature_data where
  number : Int
  name : CStr
  mapping : Int
  deriving DecidableEq, Repr

/-- Everything outside `sensors.c` that its functions consult, for values of type `V`
(the C type `double`).

* `conf_opens`: `fopen ("/etc/sensors.conf", "r")` does not return `NULL`;
* `sensors_init`: the return value of `sensors_init (fh)`;
* `chips`: the chips returned by successive calls of `sensors_get_detected_chips`,
  each with the features returned by successive calls of `sensors_get_all_features`;
* `sensors_get_ignored`, `sensors_get_feature`: the library calls of these names
  (the latter gives the status and the value stored through the pointer);
* `SENSORS_NO_MAPPING`, `SENSORS_CHIP_NAME_BUS_ISA`, `SENSORS_CHIP_NAME_BUS_DUMMY`:
  the constants of `<sensors/sensors.h>`;
* `malloc_ok n`: the call of `malloc` made when `n` nodes have been allocated before
  does not return `NULL`;
* `curtime`: the global `curtime`;
* `snprintf_u_3f t v`: the string written for the format `"%u:%.3f"`. -/
structure Env (V : Type) where
  conf_opens : Bool
  sensors_init : Int
  chips : List (sensors_chip_name × List sensors_feature_data)
  sensors_get_ignored : sensors_chip_name → Int → Int
  sensors_get_feature : sensors_chip_name → Int → Int × V
  SENSORS_NO_MAPPING : Int
  SENSORS_CHIP_NAME_BUS_ISA : Int
  SENSORS_CHIP_NAME_BUS_DUMMY : Int
  malloc_ok : Nat → Bool
  curtime : Nat
  snprintf_u_3f : Nat → V → CStr

/-! ## The feature list in memory (lines 172-182) -/

/-- An address of a `featurelist_t` node; `0` is `NULL`. -/
abbrev Ptr := Nat

/-- The struct `featurelist_t`; `chip` and `data` stand for the provider's objects the
C pointers refer to. -/
structure featurelist_t where
  chip : sensors_chip_name
  data : sensors_feature_data
  type : Int
  next : Ptr
  deriving DecidableEq, Repr

/-- The state of the plugin between calls: the global `first_feature`, the nodes that
are currently allocated (`cell p = none` for an address that is not, or no longer,
allocated) and the number `brk` of nodes allocated so far (`malloc` hands out the
address `brk + 1`, so that no address is handed out twice). -/
structure State where
  first_feature : Ptr
  cell : Ptr → Option featurelist_t
  brk : Nat

/-- Undefined behaviour reached by a run. -/
inductive Fault where
  | null_deref
  | use_after_free
  | bad_index
  deriving DecidableEq, Repr

/-- The outcome of running a function of the plugin: a result, undefined behaviour, or
the fuel of a pointer-chasing loop used up. -/
inductive Res (α : Type) where
  | ok (a : α)
  | fault (f : Fault)
  | out_of_fuel
  deriving DecidableEq, Repr

/-- The fault of reading through the pointer `p` that has no allocated node. -/
def bad_pointer (p : Ptr) : Fault :=
  if p = 0 then Fault.null_deref else Fault.use_after_free

/-- The memory after writing `v` at address `p` (`none`: after `free (p)`). -/
def store (cell : Ptr → Option featurelist_t) (p : Ptr) (v : Option featurelist_t) :
    Ptr → Option featurelist_t :=
  fun q => if q = p then v else cell q

/-- Sequencing of two steps of a run. -/
def Res.bind {α β : Type} (r : Res α) (k : α → Res β) : Res β :=
  match r with
  | .ok a => k a
  | .fault f => .fault f
  | .out_of_fuel => .out_of_fuel

/-! ## `collectd_sensors_init` (lines 250-348) -/

/-- The loop `new_feature = first_feature; while (new_feature != NULL) { last_feature =
new_feature->next; free (new_feature); new_feature = last_feature; }`, started with the
pointer `new_feature` and the current value of `last_feature`: the memory after the loop
and the final value of `last_feature`.  The loop assigns neither `first_feature` nor any
other global. -/
def free_features : Nat → (Ptr → Option featurelist_t) → Ptr → Ptr →
    Res ((Ptr → Option featurelist_t) × Ptr)
  | _, cell, 0, last_feature => .ok (cell, last_feature)
  | 0, _, _ + 1, _ => .out_of_fuel
  | fuel + 1, cell, p + 1, _ =>
    match cell (p + 1) with
    | none => .fault (bad_pointer (p + 1))
    | some node => free_features fuel (store cell (p + 1) none) node.next node.next

/-- The variables that the enumeration loops of `collectd_sensors_init` update: the
global `first_feature`, the local `last_feature` and the memory. -/
structure Build where
  first_feature : Ptr
  last_feature : Ptr
  cell : Ptr → Option featurelist_t
  brk : Nat

/-- The body of the inner `while` loop of `collectd_sensors_init` for the feature `data`
of `chip`: mapped features are skipped; the table is searched; at the first matching
element the feature is dropped when `sensors_get_ignored` returns `0` or `malloc` fails,
and otherwise a node is allocated, filled in and linked behind `last_feature` (or made
the first node when `first_feature` is `NULL`). -/
def add_feature {V : Type} (env : Env V) (chip : sensors_chip_name)
    (data : sensors_feature_data) (b : Build) : Res Build :=
  if data.mapping ≠ env.SENSORS_NO_MAPPING then .ok b
  else
    match classify data.name with
    | none => .ok b
    | some type =>
      if env.sensors_get_ignored chip data.number = 0 then .ok b
      else if env.malloc_ok b.brk = false then .ok b
      else
        let new_feature : Ptr := b.brk + 1
        let cell := store b.cell new_feature (some ⟨chip, data, type, 0⟩)
        if b.first_feature = 0 then .ok ⟨new_feature, new_feature, cell, b.brk + 1⟩
        else
          match cell b.last_feature with
          | none => .fault (bad_pointer b.last_feature)
          | some last =>
            .ok ⟨b.first_feature, new_feature,
              store cell b.last_feature (some { last with next := new_feature }), b.brk + 1⟩

/-- The loop `while ((data = sensors_get_all_features (*chip, ...)) != NULL)`. -/
def features_loop {V : Type} (env : Env V) (chip : sensors_chip_name) :
    List sensors_feature_data → Build → Res Build
  | [], b => .ok b
  | data :: rest, b => (add_feature env chip data b).bind (features_loop env chip rest)

/-- The loop `while ((chip = sensors_get_detected_chips (&chip_num)) != NULL)`. -/
def chips_loop {V : Type} (env : Env V) :
    List (sensors_chip_name × List sensors_feature_data) → Build → Res Build
  | [], b => .ok b
  | (chip, features) :: rest, b =>
    (features_loop env chip features b).bind (chips_loop env rest)

/-- The function `collectd_sensors_init ()`.  `fuel` bounds the number of iterations of the
loop that frees the old list.  The calls `fclose`, `syslog`, `perror` and the final
`sensors_cleanup ()` (made when `first_feature` is `NULL`) do not touch the state of the
plugin and are left out. -/
def collectd_sensors_init {V : Type} (env : Env V) (fuel : Nat) (s : State) : Res State :=
  (free_features fuel s.cell s.first_feature 0).bind fun (cell, last_feature) =>
    if env.conf_opens = false then .ok ⟨s.first_feature, cell, s.brk⟩
    else if env.sensors_init ≠ 0 then .ok ⟨s.first_feature, cell, s.brk⟩
    else
      (chips_loop env env.chips ⟨s.first_feature, last_feature, cell, s.brk⟩).bind fun b =>
        .ok ⟨b.first_feature, b.cell, b.brk⟩

/-! ## `sensors_submit` and `sensors_read` (lines 388-443) -/

/-- A call `plugin_submit (MODULE_NAME, inst, buf)`. -/
structure Submission where
  inst : CStr
  buf : CStr
  deriving DecidableEq, Repr

/-- The function `sensors_submit (feat_name, chip_prefix, value)`: the call of
`plugin_submit` it makes, if any. -/
def sensors_submit {V : Type} (env : Env V) (cfg : Config) (feat_name : CStr)
    ( chip_prefix : CStr) (value : V) : Option Submission :=
  let inst : CStr := chip_prefix ++ "-".toList ++ feat_name
  if inst.length ≥ BUFSIZE then none
  else if config_get_ignored cfg inst ≠ 0 then none
  else
    let buf : CStr := env.snprintf_u_3f (env.curtime % 2 ^ 32) value
    if buf.length ≥ BUFSIZE then none
    else some ⟨inst, buf⟩

/-- The expression `sensor_type_prefix[type]` used as a `%s` argument: `none` when the
index is outside the array or selects its `NULL` element. -/
def type_prefix_at (type : Int) : Option CStr :=
  if type < 0 then none else sensor_type_prefix.get? type.toNat

/-- The string that `sensors_read` formats into `chip_fullprefix` under extended naming,
by the bus of the chip (formats `"%s-isa-%04x%s"`, `"%s-%s-%04x%s"`, `"%s-i2c-%d-%02x%s"`).
Each of the three calls reads `sensor_type_prefix[feature->type]` for its last `%s`. -/
def chip_fullprefix {V : Type} (env : Env V) (feature : featurelist_t) : Res CStr :=
  match type_prefix_at feature.type with
  | none => .fault Fault.bad_index
  | some tp =>
    if feature.chip.bus = env.SENSORS_CHIP_NAME_BUS_ISA then
      .ok (feature.chip.prefix_ ++ "-isa-".toList ++ fmt_0x 4 feature.chip.addr ++ tp)
    else if feature.chip.bus = env.SENSORS_CHIP_NAME_BUS_DUMMY then
      .ok (feature.chip.prefix_ ++ "-".toList ++ feature.chip.busname ++ "-".toList
        ++ fmt_0x 4 feature.chip.addr ++ tp)
    else
      .ok (feature.chip.prefix_ ++ "-i2c-".toList ++ fmt_d feature.chip.bus ++ "-".toList
        ++ fmt_0x 2 feature.chip.addr ++ tp)

/-- The body of the `for` loop of `sensors_read` for the node `feature`: the submission
made for it, if any. -/
def sensors_read_feature {V : Type} (env : Env V) (cfg : Config) (feature : featurelist_t) :
    Res (Option Submission) :=
  if (env.sensors_get_feature feature.chip feature.data.number).1 < 0 then .ok none
  else if cfg.sensor_extended_naming ≠ 0 then
    ( chip_fullprefix env feature).bind fun full =>
      if full.length ≥ BUFSIZE then .ok none
      else .ok (sensors_submit env cfg feature.data.name full
        (env.sensors_get_feature feature.chip feature.data.number).2)
  else
    .ok (sensors_submit env cfg feature.data.name feature.chip.prefix_
      (env.sensors_get_feature feature.chip feature.data.number).2)

/-- The loop `for (feature = first_feature; feature != NULL; feature = feature->next)` of
`sensors_read`, from the pointer `feature` on: the submissions made, in order. -/
def sensors_read_loop {V : Type} (env : Env V) (cfg : Config) :
    Nat → (Ptr → Option featurelist_t) → Ptr → Res (List Submission)
  | _, _, 0 => .ok []
  | 0, _, _ + 1 => .out_of_fuel
  | fuel + 1, cell, p + 1 =>
    match cell (p + 1) with
    | none => .fault (bad_pointer (p + 1))
    | some feature =>
      (sensors_read_feature env cfg feature).bind fun out =>
        (sensors_read_loop env cfg fuel cell feature.next).bind fun rest =>
          .ok (out.toList ++ rest)

/-- The function `sensors_read ()`: the calls of `plugin_submit` of one scan cycle. -/
def sensors_read {V : Type} (env : Env V) (cfg : Config) (fuel : Nat) (s : State) :
    Res (List Submission) :=
  sensors_read_loop env cfg fuel s.cell s.first_feature

/-! ## `sensors_write` (lines 350-385) -/

/-- The libc function `strrchr (s, c)`: the tail of `s` that starts at the last occurrence
of `c`, or `none` (`NULL`) when `c` does not occur. -/
def strrchr (s : CStr) (c : Char) : Option CStr :=
  match s with
  | [] => none
  | a :: rest =>
    match strrchr rest c with
    | some t => some t
    | none => if a = c then some (a :: rest) else none

/-- The array `ds_def`, for the value `heartbeat` of the macro `COLLECTD_HEARTBEAT`. -/
def ds_def (heartbeat : CStr) : List CStr :=
  ["DS:value:GAUGE:".toList ++ heartbeat ++ ":U:U".toList]

/-- The array `sensor_voltage_ds_def`. -/
def sensor_voltage_ds_def (heartbeat : CStr) : List CStr :=
  ["DS:voltage:GAUGE:".toList ++ heartbeat ++ ":U:U".toList]

/-- A call `rrd_update_file (host, file, val, ds_def, ds_num)`. -/
structure RrdUpdate where
  host : CStr
  file : CStr
  val : CStr
  ds : List CStr
  ds_num : Int
  deriving DecidableEq, Repr

/-- The function `sensors_write (host, inst, val)`: the call of `rrd_update_file` it makes,
if any. -/
def sensors_write (heartbeat : CStr) (cfg : Config) (host inst val : CStr) :
    Option RrdUpdate :=
  if config_get_ignored cfg inst ≠ 0 then none
  else
    let file : CStr :=
      if cfg.sensor_extended_naming ≠ 0 then "lm_sensors-".toList ++ inst ++ ".rrd".toList
      else "sensors-".toList ++ inst ++ ".rrd".toList
    if (file.length : Int) < 1 then none
    else if file.length ≥ BUFSIZE then none
    else if cfg.sensor_extended_naming ≠ 0 then
      match strrchr inst '/' with
      | some typestart =>
        if strncmp typestart "/voltage".toList "/voltage".toList.length = 0 then
          some ⟨host, file, val, sensor_voltage_ds_def heartbeat, 1⟩
        else some ⟨host, file, val, ds_def heartbeat, 1⟩
      | none => none
    else some ⟨host, file, val, ds_def heartbeat, 1⟩

/-! ## The catalog as a list -/

/-- The nodes reached from `p` by following `next` are exactly `nodes`, in order, and
the chain ends in `NULL`. -/
def isList (cell : Ptr → Option featurelist_t) : Ptr → List featurelist_t → Prop
  | p, [] => p = 0
  | p, n :: rest => p ≠ 0 ∧ cell p = some n ∧ isList cell n.next rest

instance isList.decidable (cell : Ptr → Option featurelist_t) :
    (p : Ptr) → (nodes : List featurelist_t) → Decidable (isList cell p nodes)
  | p, [] => by unfold isList; infer_instance
  | p, n :: rest => by
    unfold isList
    have := isList.decidable cell n.next rest
    infer_instance

/-- The addresses of the nodes of a list that starts at `p`. -/
def chain_addrs : Ptr → List featurelist_t → List Ptr
  | _, [] => []
  | p, n :: rest => p :: chain_addrs n.next rest

/-- A catalog entry of the specification: chip, feature and category of a node. -/
structure FeatureEntry where
  chip : sensors_chip_name
  data : sensors_feature_data
  type : Int
  deriving DecidableEq, Repr

/-- The catalog entry stored in a node. -/
def featurelist_t.entry (n : featurelist_t) : FeatureEntry :=
  ⟨n.chip, n.data, n.type⟩

/-- The empty memory. -/
def emptyCell : Ptr → Option featurelist_t := fun _ => none

/-! ## Identifiers and readings in the words of the specification -/

/-- The category suffix of the specification: `unknown`, `voltage`, `fanspeed` or
`temperature`, by the category (`SENSOR_TYPE_*`) of the entry. -/
def category_suffix (type : Int) : CStr :=
  if type = SENSOR_TYPE_VOLTAGE then "voltage".toList
  else if type = SENSOR_TYPE_FANSPEED then "fanspeed".toList
  else if type = SENSOR_TYPE_TEMPERATURE then "temperature".toList
  else "unknown".toList

/-- The four hexadecimal digits of `a`, most significant first. -/
def hexField4 (a : Nat) : CStr :=
  [digitChar (a / 4096 % 16), digitChar (a / 256 % 16), digitChar (a / 16 % 16),
    digitChar (a % 16)]

/-- The two hexadecimal digits of `a`, most significant first. -/
def hexField2 (a : Nat) : CStr :=
  [digitChar (a / 16 % 16), digitChar (a % 16)]

/-- The bus descriptor of the specification: `isa-<address>` for a chip on the ISA bus,
`<bus name>-<address>` for a chip on a named (dummy) bus, `i2c-<bus number>-<address>` for
a chip on a numbered bus; the address is in lowercase hexadecimal, padded with zeros to
at least 4, 4 and 2 digits. -/
def bus_descriptor {V : Type} (env : Env V) (chip : sensors_chip_name) : CStr :=
  if chip.bus = env.SENSORS_CHIP_NAME_BUS_ISA then
    "isa-".toList ++ fmt_0x 4 chip.addr
  else if chip.bus = env.SENSORS_CHIP_NAME_BUS_DUMMY then
    chip.busname ++ "-".toList ++ fmt_0x 4 chip.addr
  else
    "i2c-".toList ++ fmt_d chip.bus ++ "-".toList ++ fmt_0x 2 chip.addr

/-- The extended identifier of the specification:
`<chip-prefix>-<bus-descriptor>/<category-suffix>-<rawLabel>`. -/
def extended_identifier {V : Type} (env : Env V) (chip : sensors_chip_name) (type : Int)
    (rawLabel : CStr) : CStr :=
  chip.prefix_ ++ "-".toList ++ bus_descriptor env chip ++ "/".toList ++ category_suffix type
    ++ "-".toList ++ rawLabel

/-- The legacy identifier of the specification: `<chip-prefix>-<rawLabel>`. -/
def legacy_identifier ( chip_prefix : CStr) (rawLabel : CStr) : CStr :=
  chip_prefix ++ "-".toList ++ rawLabel

/-- The identifier of a catalog entry under the configured naming scheme. -/
def identifier {V : Type} (env : Env V) (cfg : Config) (f : featurelist_t) : CStr :=
  if cfg.sensor_extended_naming ≠ 0 then extended_identifier env f.chip f.type f.data.name
  else legacy_identifier f.chip.prefix_ f.data.name

/-- The record string `"<timestamp>:<value>"` of an entry in the current cycle. -/
def record {V : Type} (env : Env V) (f : featurelist_t) : CStr :=
  env.snprintf_u_3f (env.curtime % 2 ^ 32) (env.sensors_get_feature f.chip f.data.number).2

/-- The reading that the specification asks a scan cycle to submit for a catalog entry:
one reading if the provider read succeeds, the identifier fits the buffer and the
selection filter accepts the identifier, none otherwise. -/
def reading {V : Type} (env : Env V) (cfg : Config) (f : featurelist_t) : Option Submission :=
  if 0 ≤ (env.sensors_get_feature f.chip f.data.number).1
      ∧ (identifier env cfg f).length < BUFSIZE
      ∧ isAccepted cfg (identifier env cfg f) = true then
    some ⟨identifier env cfg f, record env f⟩
  else none

/-- The categories for which `sensor_type_prefix[type]` is one of the four strings of the
array. -/
def typeInTable (type : Int) : Prop :=
  0 ≤ type ∧ type ≤ 3

instance (type : Int) : Decidable (typeInTable type) := by
  unfold typeInTable; infer_instance

/-- The records of the environment fit the buffer of `sensors_submit`: the format
`"%u:%.3f"` of an `unsigned int` and a `double` writes fewer than `BUFSIZE` characters. -/
def recordsFit {V : Type} (env : Env V) : Prop :=
  ∀ t v, (env.snprintf_u_3f t v).length < BUFSIZE

/-! ## The catalog in the words of the specification -/

/-- The features in provider enumeration order: chips in order, features in order within a
chip. -/
def enumerated {V : Type} (env : Env V) : List (sensors_chip_name × sensors_feature_data) :=
  (env.chips.map fun cf => cf.2.map fun d => (cf.1, d)).flatten

/-- The catalog entry of an enumerated feature: an entry with the classifier's category
if the feature is a master feature, its raw label is classified and the provider does not
report it as ignored (`sensors_get_ignored` returning `0` means ignored); none otherwise. -/
def catalogued {V : Type} (env : Env V) (cd : sensors_chip_name × sensors_feature_data) :
    Option FeatureEntry :=
  if cd.2.mapping = env.SENSORS_NO_MAPPING then
    match classify cd.2.name with
    | some category =>
      if env.sensors_get_ignored cd.1 cd.2.number = 0 then none
      else some ⟨cd.1, cd.2, category⟩
    | none => none
  else none

/-- The catalog that the specification asks a rebuild to produce. -/
def expected_catalog {V : Type} (env : Env V) : List FeatureEntry :=
  (enumerated env).filterMap (catalogued env)

/-- The nodes that hold the entries `es` when they are allocated one after the other at
the addresses `base + 1`, `base + 2`, ... -/
def layout : Nat → List FeatureEntry → List featurelist_t
  | _, [] => []
  | base, e :: rest =>
    ⟨e.chip, e.data, e.type, if rest = [] then 0 else base + 2⟩ :: layout (base + 1) rest

/-- The state of the enumeration loops after the entries `acc` have been appended to a
catalog that was empty when `brk0` nodes had been allocated. -/
def BuildInv (brk0 : Nat) (b : Build) (acc : List FeatureEntry) : Prop :=
  b.brk = brk0 + acc.length
    ∧ b.first_feature = (if acc = [] then 0 else brk0 + 1)
    ∧ (acc ≠ [] → b.last_feature = brk0 + acc.length)
    ∧ isList b.cell b.first_feature (layout brk0 acc)

/-- Allocation never fails in the environment. -/
def mallocSucceeds {V : Type} (env : Env V) : Prop :=
  ∀ n, env.malloc_ok n = true

/-! ## Sample inputs -/

/-- A sample chip on the ISA bus at address `0x2d`, with prefix `p`. -/
def sampleChip : sensors_chip_name :=
  ⟨"p".toList, -1, 0x2d, []⟩

/-- A sample chip on the numbered bus `0` at address `0x48`. -/
def sampleChipI2c : sensors_chip_name :=
  ⟨"lm75".toList, 0, 0x48, []⟩

/-- A sample environment: two chips, the first with a master feature `temp1`, a mapped
feature `temp1_max`, an unknown label, a natively ignored feature `in0` and a feature
`fan1` whose read fails; the second with a feature `temp`. -/
def sampleEnv : Env Nat where
  conf_opens := true
  sensors_init := 0
  chips :=
    [ (sampleChip,
        [ ⟨1, "temp1".toList, -1⟩, ⟨2, "temp1_max".toList, 1⟩, ⟨3, "foo".toList, -1⟩,
          ⟨4, "in0".toList, -1⟩, ⟨5, "fan1".toList, -1⟩ ]),
      (sampleChipI2c, [ ⟨1, "temp".toList, -1⟩ ]) ]
  sensors_get_ignored := fun _ n => if n = 4 then 0 else 1
  sensors_get_feature := fun _ n => (if n = 5 then -1 else 0, 42)
  SENSORS_NO_MAPPING := -1
  SENSORS_CHIP_NAME_BUS_ISA := -1
  SENSORS_CHIP_NAME_BUS_DUMMY := -4
  malloc_ok := fun _ => true
  curtime := 1000
  snprintf_u_3f := fun _ _ => "1000:42.000".toList

/-- The sample environment with the provider configuration unreadable. -/
def sampleEnvDown : Env Nat :=
  { sampleEnv with conf_opens := false }

/-- The sample environment with `sensors_init` reporting a failure. -/
def sampleEnvInitFails : Env Nat :=
  { sampleEnv with sensors_init := 1 }

/-- The sample environment with every allocation failing. -/
def sampleEnvNoMem : Env Nat :=
  { sampleEnv with malloc_ok := fun _ => false }

/-- The node of the feature `temp1` of the sample chip, linked to `next`. -/
def sampleNode (next : Ptr) : featurelist_t :=
  ⟨sampleChip, ⟨1, "temp1".toList, -1⟩, SENSOR_TYPE_TEMPERATURE, next⟩

/-- The node of the feature `fan1` of the sample chip, whose read fails. -/
def sampleNodeFan (next : Ptr) : featurelist_t :=
  ⟨sampleChip, ⟨5, "fan1".toList, -1⟩, SENSOR_TYPE_FANSPEED, next⟩

/-- The node of the feature `temp` of the second sample chip. -/
def sampleNodeI2c (next : Ptr) : featurelist_t :=
  ⟨sampleChipI2c, ⟨1, "temp".toList, -1⟩, SENSOR_TYPE_TEMPERATURE, next⟩

/-- A node of a chip on the numbered bus `0` at the ten-bit address `0x150`, which needs
three hexadecimal digits. -/
def wideNode : featurelist_t :=
  ⟨⟨"lm75".toList, 0, 0x150, []⟩, ⟨1, "temp".toList, -1⟩, SENSOR_TYPE_TEMPERATURE, 0⟩

/-- A node whose label has 600 characters. -/
def longNode (next : Ptr) : featurelist_t :=
  ⟨sampleChip, ⟨6, "temp1".toList ++ List.replicate 595 'x', -1⟩, SENSOR_TYPE_TEMPERATURE, next⟩

/-- The state with no catalog. -/
def emptyState : State :=
  ⟨0, emptyCell, 0⟩

/-- A state whose catalog is the single node `sampleNode 0` at address `1`. -/
def oneState : State :=
  ⟨1, store emptyCell 1 (some (sampleNode 0)), 1⟩

/-- A state whose catalog holds three nodes: `temp1`, `fan1` (read fails) and `temp`. -/
def threeState : State :=
  ⟨1, store (store (store emptyCell 1 (some (sampleNode 2))) 2 (some (sampleNodeFan 3))) 3
    (some (sampleNodeI2c 0)), 3⟩

/-- A state whose catalog holds a node with an over-long label between two others. -/
def longState : State :=
  ⟨1, store (store (store emptyCell 1 (some (sampleNode 2))) 2 (some (longNode 3))) 3
    (some (sampleNodeI2c 0)), 3⟩

/-- The configuration with extended naming and an empty selection list. -/
def extendedConfig : Config :=
  ⟨[], 0, 1⟩

/-- The configuration with legacy naming and an empty selection list. -/
def legacyConfig : Config :=
  ⟨[], 0, 0⟩

/-! ## Further definitions in the words of the specification, and further samples -/

/-- A second chip `lm75` on the numbered bus `0`, at address `0x49`. -/
def sampleChipI2cB : sensors_chip_name :=
  ⟨"lm75".toList, 0, 0x49, []⟩

/-- The node of the feature `temp` of the chip `lm75` at address `0x49`. -/
def sampleNodeI2cB : featurelist_t :=
  ⟨sampleChipI2cB, ⟨1, "temp".toList, -1⟩, SENSOR_TYPE_TEMPERATURE, 0⟩

/-- The node of the feature `temp1` of a chip `p` at address `0x2d` of a named (dummy) bus
called `isa`. -/
def sampleNodeNamedIsa : featurelist_t :=
  ⟨⟨"p".toList, -4, 0x2d, "isa".toList⟩, ⟨1, "temp1".toList, -1⟩, SENSOR_TYPE_TEMPERATURE, 0⟩

/-- The extended configuration whose selection list holds the legacy string `p-temp1`. -/
def extendedConfigLegacyList : Config :=
  ⟨["p-temp1".toList], 0, 1⟩

/-- The extended configuration whose selection list holds the extended identifier of the
feature `temp1` of the sample chip. -/
def extendedConfigFullList : Config :=
  ⟨["p-isa-002d/temperature-temp1".toList], 0, 1⟩

/-- The file name that the specification asks the writer to build: the template of the
naming scheme (`sensors-%s.rrd`, `lm_sensors-%s.rrd`) filled with the identifier. -/
def write_filename (cfg : Config) (inst : CStr) : CStr :=
  if cfg.sensor_extended_naming ≠ 0 then "lm_sensors-".toList ++ inst ++ ".rrd".toList
  else "sensors-".toList ++ inst ++ ".rrd".toList

/-- The categories of catalogued features: Voltage, FanSpeed, Temperature. -/
def validCategory (type : Int) : Prop :=
  type = SENSOR_TYPE_VOLTAGE ∨ type = SENSOR_TYPE_FANSPEED ∨ type = SENSOR_TYPE_TEMPERATURE

instance (type : Int) : Decidable (validCategory type) := by
  unfold validCategory; infer_instance

/-- A node whose raw label `temp1/voltage` is classified Temperature and contains a `/`. -/
def slashNode : featurelist_t :=
  ⟨sampleChip, ⟨7, "temp1/voltage".toList, -1⟩, SENSOR_TYPE_TEMPERATURE, 0⟩

/-- The values that a boolean option reads as true, in the words of the specification:
`True`, `Yes` or `On`, ignoring case. -/
def isTrueWord (value : CStr) : Prop :=
  eqIgnoreCase value "True".toList ∨ eqIgnoreCase value "Yes".toList
    ∨ eqIgnoreCase value "On".toList

instance (value : CStr) : Decidable (isTrueWord value) := by
  unfold isTrueWord; infer_instance

/-- The configuration globals as initialised in the source: no list, both flags `0`. -/
def initialConfig : Config :=
  ⟨[], 0, 0⟩

/-- The configuration after the options `Sensor v` for the values `vs`, in order, every
allocation succeeding. -/
def configure_sensors (cfg : Config) (vs : List CStr) : Config :=
  vs.foldl (fun c v => (sensors_config true true c "Sensor".toList v).1) cfg

/-- The environment in which every allocation succeeds and nothing else is changed. -/
def withMemory {V : Type} (env : Env V) : Env V :=
  { env with malloc_ok := fun _ => true }

/-- The state that the first rebuild against the sample provider leaves: the nodes are
written in the order in which `collectd_sensors_init` allocates and links them. -/
def rebuiltState : State :=
  ⟨1, store (store (store (store (store emptyCell 1 (some (sampleNode 0))) 2
    (some (sampleNodeFan 0))) 1 (some (sampleNode 2))) 3 (some (sampleNodeI2c 0))) 2
    (some (sampleNodeFan 3)), 3⟩

/-- The properties of a node with a category of the classifier: the category is Voltage,
FanSpeed or Temperature, not Unknown and not the terminator; the lookup in
`sensor_type_prefix` finds the string of the category, which is not `/unknown`. -/
def goodNode {V : Type} (env : Env V) (n : featurelist_t) : Prop :=
  validCategory n.type ∧ n.type ≠ SENSOR_TYPE_UNKNOWN ∧ n.type ≠ -1 ∧ typeInTable n.type
    ∧ type_prefix_at n.type = some ('/' :: category_suffix n.type)
    ∧ category_suffix n.type ≠ "unknown".toList
    ∧ chip_fullprefix env n
        = .ok (n.chip.prefix_ ++ "-".toList ++ bus_descriptor env n.chip ++ "/".toList
            ++ category_suffix n.type)

/-! # Theorems -/

/-! ## Lemmas on the string functions -/

theorem cmpSign_ne_zero (a b : Char) : cmpSign a b ≠ 0 := by
  unfold cmpSign; split <;> decide

theorem strncmp_eq_zero_iff (l name : CStr) : strncmp name l l.length = 0 ↔ l <+: name := by
  induction l generalizing name with
  | nil => simp [strncmp]
  | cons b l ih =>
    cases name with
    | nil => simp [strncmp]
    | cons a name =>
      by_cases h : a = b
      · subst h
        simp [strncmp, ih, List.cons_prefix_cons]
      · have h' : ¬ b = a := fun e => h e.symm
        simp [strncmp, h, h', List.cons_prefix_cons, cmpSign_ne_zero]

theorem strcasecmp_eq_zero_iff (a b : CStr) : strcasecmp a b = 0 ↔ eqIgnoreCase a b := by
  unfold eqIgnoreCase
  induction a generalizing b with
  | nil => cases b <;> simp [strcasecmp]
  | cons x a ih =>
    cases b with
    | nil => simp [strcasecmp]
    | cons y b =>
      by_cases h : tolower x = tolower y
      · simp [strcasecmp, h, ih]
      · simp [strcasecmp, h, cmpSign_ne_zero]

/-! ## The table scan -/

theorem known_features_scan_ge (name : CStr) (tbl : List sensors_labeltypes) (i k : Nat)
    (h : known_features_scan name tbl i = some k) : i ≤ k := by
  induction tbl generalizing i with
  | nil => simp [known_features_scan] at h
  | cons e rest ih =>
    unfold known_features_scan at h
    split at h
    · split at h
      · simp at h; omega
      · have := ih (i + 1) h; omega
    · simp at h

/-- The element at which the scan stops is the first rule, among those before the
terminator, whose label is a prefix of the name. -/
theorem known_features_scan_rule (name : CStr) (tbl : List sensors_labeltypes) (i : Nat) :
    ((known_features_scan name tbl i).bind fun k => tbl.get? (k - i))
      = (tbl.takeWhile fun e => decide (e.type ≥ 0)).find? fun e => e.label.isPrefixOf name := by
  induction tbl generalizing i with
  | nil => simp [known_features_scan]
  | cons e rest ih =>
    unfold known_features_scan
    by_cases ht : e.type ≥ 0
    · by_cases hm : e.label <+: name
      · simp [ht, (strncmp_eq_zero_iff _ _).2 hm, List.takeWhile_cons, hm]
      · have hm' : ¬ strncmp name e.label e.label.length = 0 :=
          fun h => hm ((strncmp_eq_zero_iff _ _).1 h)
        simp only [ht, hm', if_true, if_false, List.takeWhile_cons, decide_True]
        rw [List.find?_cons_of_neg _ (by simpa using hm), ← ih (i + 1)]
        cases hk : known_features_scan name rest (i + 1) with
        | none => rfl
        | some k =>
          have := known_features_scan_ge _ _ _ _ hk
          have e1 : k - i = (k - (i + 1)) + 1 := by omega
          simp [e1]
    · simp [ht, List.takeWhile_cons]

theorem classify_rule_eq_find (name : CStr) :
    classify_rule name = known_rules.find? fun e => e.label.isPrefixOf name := by
  have := known_features_scan_rule name known_features 0
  simpa [classify_rule, classify_index, known_rules] using this

theorem classify_eq_map_rule (name : CStr) :
    classify name = (classify_rule name).map fun e => e.type := by
  unfold classify classify_rule
  cases classify_index name <;> simp

theorem known_features_scan_eq_some_iff (name : CStr) (tbl : List sensors_labeltypes)
    (i k : Nat) :
    known_features_scan name tbl i = some k ↔
      ∃ j, k = i + j
        ∧ (∃ e, (tbl.takeWhile fun e => decide (e.type ≥ 0)).get? j = some e ∧ e.label <+: name)
        ∧ ∀ j', j' < j → ∀ e, (tbl.takeWhile fun e => decide (e.type ≥ 0)).get? j' = some e →
            ¬ e.label <+: name := by
  induction tbl generalizing i with
  | nil => simp [known_features_scan]
  | cons e rest ih =>
    unfold known_features_scan
    by_cases ht : e.type ≥ 0
    · by_cases hm : e.label <+: name
      · simp only [ht, (strncmp_eq_zero_iff _ _).2 hm, if_true, List.takeWhile_cons,
          decide_True, Option.some.injEq]
        constructor
        · rintro rfl
          exact ⟨0, rfl, ⟨e, rfl, hm⟩, fun j' hj' => absurd hj' (Nat.not_lt_zero _)⟩
        · rintro ⟨j, rfl, -, hfirst⟩
          rcases Nat.eq_zero_or_pos j with h0 | hpos
          · simp [h0]
          · exact absurd hm (hfirst 0 hpos e rfl)
      · have hm' : ¬ strncmp name e.label e.label.length = 0 :=
          fun h => hm ((strncmp_eq_zero_iff _ _).1 h)
        simp only [ht, hm', if_true, if_false, List.takeWhile_cons, decide_True]
        rw [ih (i + 1)]
        constructor
        · rintro ⟨j, rfl, ⟨e', he', hme'⟩, hfirst⟩
          refine ⟨j + 1, by omega, ⟨e', by simpa using he', hme'⟩, ?_⟩
          intro j' hj' e'' he''
          cases j' with
          | zero =>
            simp at he''
            subst he''
            exact hm
          | succ j' =>
            exact hfirst j' (by omega) e'' (by simpa using he'')
        · rintro ⟨j, rfl, ⟨e', he', hme'⟩, hfirst⟩
          cases j with
          | zero =>
            simp at he'
            subst he'
            exact absurd hme' hm
          | succ j =>
            refine ⟨j, by omega, ⟨e', by simpa using he', hme'⟩, ?_⟩
            intro j' hj' e'' he''
            exact hfirst (j' + 1) (by omega) e'' (by simpa using he'')
    · simp [ht, List.takeWhile_cons]

theorem classify_index_eq_some_iff (name : CStr) (i : Nat) :
    classify_index name = some i ↔
      (∃ e, known_rules.get? i = some e ∧ e.label <+: name)
        ∧ ∀ j, j < i → ∀ e, known_rules.get? j = some e → ¬ e.label <+: name := by
  unfold classify_index known_rules
  rw [known_features_scan_eq_some_iff]
  constructor
  · rintro ⟨j, hj, h⟩
    have : i = j := by omega
    subst this
    exact h
  · intro h
    exact ⟨i, by omega, h⟩

/-- No label of the table is a prefix of the label of a later rule. -/
theorem known_rules_pairwise :
    known_rules.Pairwise fun r e => ¬ r.label <+: e.label := by
  decide

/-- A name with the prefix `p` is matched by no rule whose label is incomparable with `p`. -/
theorem not_prefix_of_incomparable {p l name : CStr} (hp : p <+: name)
    (h1 : ¬ l <+: p) (h2 : ¬ p <+: l) : ¬ l <+: name := by
  intro hl
  rcases List.prefix_or_prefix_of_prefix hl hp with h | h
  · exact h1 h
  · exact h2 h

/-- C1: label classification is first-match over the table `known_features`: the
category assigned to a raw label is the category of the first rule (top to bottom) whose
pattern is a case-sensitive prefix of the label, the index selected is the index of that
rule, and no category is assigned iff no pattern of the table is a prefix of the label; a
feature without category is not put into the catalog. -/
theorem C1_classify_first_match (name : CStr) :
    classify name
        = (known_rules.find? fun e => e.label.isPrefixOf name).map (fun e => e.type)
      ∧ (∀ i, classify_index name = some i ↔
          (∃ e, known_rules.get? i = some e ∧ e.label <+: name)
            ∧ ∀ j, j < i → ∀ e, known_rules.get? j = some e → ¬ e.label <+: name)
      ∧ (classify name = none ↔ ∀ e ∈ known_rules, ¬ e.label <+: name)
      ∧ (classify name = none →
          ∀ (V : Type) (env : Env V) (chip : sensors_chip_name) (number mapping : Int)
            (b : Build),
            ∃ b', add_feature env chip ⟨number, name, mapping⟩ b = .ok b'
              ∧ b'.first_feature = b.first_feature ∧ b'.last_feature = b.last_feature
              ∧ b'.cell = b.cell ∧ b'.brk = b.brk) := by
  have h1 : classify name
      = (known_rules.find? fun e => e.label.isPrefixOf name).map (fun e => e.type) := by
    rw [classify_eq_map_rule, classify_rule_eq_find]
  refine ⟨h1, classify_index_eq_some_iff name, ?_, ?_⟩
  · rw [h1]
    simp [List.find?_eq_none]
  · intro hnone V env chip number mapping b
    refine ⟨b, ?_, rfl, rfl, rfl, rfl⟩
    unfold add_feature
    simp only [hnone]
    split <;> rfl

/-- C2: classification is longest-prefix matching: whenever some pattern of the table is a
prefix of the raw label, the rule selected by the scan is a rule of the table whose pattern
is a prefix of the label and is at least as long as every other pattern that is a prefix of
the label; and every label that starts with `temp1` is classified Temperature by the rule
`temp1` (index 22), not by the rule `temp` (index 23). -/
theorem C2_classify_longest_prefix (name : CStr) :
    ((∃ e ∈ known_rules, e.label <+: name) →
        ∃ r, classify_rule name = some r ∧ r ∈ known_rules ∧ r.label <+: name
          ∧ ∀ e ∈ known_rules, e.label <+: name → e.label.length ≤ r.label.length)
      ∧ ("temp1".toList <+: name →
          classify_index name = some 22
            ∧ classify_rule name = some ⟨"temp1".toList, SENSOR_TYPE_TEMPERATURE⟩
            ∧ classify name = some SENSOR_TYPE_TEMPERATURE
            ∧ known_features.get? 23 = some ⟨"temp".toList, SENSOR_TYPE_TEMPERATURE⟩) := by
  constructor
  · rintro ⟨e0, he0, hm0⟩
    rw [classify_rule_eq_find]
    cases hf : known_rules.find? (fun e => e.label.isPrefixOf name) with
    | none =>
      rw [List.find?_eq_none] at hf
      exact absurd (by simpa using hm0) (hf e0 he0)
    | some r =>
      have hr := List.find?_some hf
      have hmem := List.mem_of_find?_eq_some hf
      have hrm : r.label <+: name := by simpa using hr
      refine ⟨r, rfl, hmem, hrm, ?_⟩
      intro e he hm
      by_contra hlen
      have hlt : r.label.length < e.label.length := by omega
      have hpre : r.label <+: e.label :=
        List.prefix_of_prefix_length_le hrm hm (by omega)
      obtain ⟨_, as, bs, hsplit, hfirst⟩ := List.find?_eq_some.1 hf
      have hpw := known_rules_pairwise
      rw [hsplit, List.pairwise_append] at hpw
      rw [hsplit, List.mem_append, List.mem_cons] at he
      rcases he with he | he | he
      · have hno := hfirst e he
        have hyes : e.label.isPrefixOf name = true := by simpa using hm
        rw [hyes] at hno
        exact absurd hno (by decide)
      · subst he
        omega
      · exact (List.pairwise_cons.1 hpw.2.1).1 e he hpre
  · intro h
    have hidx : classify_index name = some 22 := by
      rw [classify_index_eq_some_iff]
      refine ⟨⟨⟨"temp1".toList, SENSOR_TYPE_TEMPERATURE⟩, by decide, h⟩, ?_⟩
      intro j hj e he
      have hinc : ¬ e.label <+: "temp1".toList ∧ ¬ "temp1".toList <+: e.label := by
        have hall : ∀ j, j < 22 → ∀ e, known_rules.get? j = some e →
            ¬ e.label <+: "temp1".toList ∧ ¬ "temp1".toList <+: e.label := by
          decide
        exact hall j hj e he
      exact not_prefix_of_incomparable h hinc.1 hinc.2
    refine ⟨hidx, ?_, ?_, by decide⟩
    · simp only [classify_rule, hidx]; decide
    · simp only [classify, hidx]; decide

/-- C3: the table satisfies the ordering invariant: whenever the pattern at index `i` is a
prefix of the pattern at a different index `j`, the longer pattern `j` stands before `i`. -/
theorem C3_known_features_ordering (i j : Nat) (li lj : sensors_labeltypes)
    (hi : known_rules.get? i = some li) (hj : known_rules.get? j = some lj)
    (hne : i ≠ j) (hpre : li.label <+: lj.label) :
    j < i ∧ li.label.length < lj.label.length := by
  have hpw := known_rules_pairwise
  rw [List.pairwise_iff_getElem] at hpw
  rw [List.get?_eq_some] at hi hj
  obtain ⟨hi', rfl⟩ := hi
  obtain ⟨hj', rfl⟩ := hj
  have hji : j < i := by
    rcases Nat.lt_or_gt_of_ne hne with h | h
    · exact absurd hpre (hpw i j hi' hj' h)
    · exact h
  refine ⟨hji, ?_⟩
  rcases Nat.lt_or_ge (known_rules.get ⟨i, hi'⟩).label.length
      (known_rules.get ⟨j, hj'⟩).label.length with h | h
  · exact h
  · exfalso
    have heq : (known_rules.get ⟨i, hi'⟩).label = (known_rules.get ⟨j, hj'⟩).label :=
      List.IsPrefix.eq_of_length_le hpre h
    exact hpw j i hj' hi' hji (by simp only [List.get_eq_getElem] at heq; rw [heq])

theorem C3_known_features_ordering_witness :
    (22 < 23 ∧ "temp".toList.length < "temp1".toList.length) :=
  C3_known_features_ordering 23 22 ⟨"temp".toList, SENSOR_TYPE_TEMPERATURE⟩
    ⟨"temp1".toList, SENSOR_TYPE_TEMPERATURE⟩ (by decide) (by decide) (by decide) (by decide)

theorem config_get_ignored_loop_eq (action : Int) (inst : CStr) (list : List CStr) :
    config_get_ignored_loop action inst list
      = if ∃ e ∈ list, eqIgnoreCase inst e then action else 1 - action := by
  induction list with
  | nil => simp [config_get_ignored_loop]
  | cons s rest ih =>
    unfold config_get_ignored_loop
    by_cases h : eqIgnoreCase inst s
    · simp [(strcasecmp_eq_zero_iff _ _).2 h, h]
    · have h' : ¬ strcasecmp inst s = 0 := fun e => h ((strcasecmp_eq_zero_iff _ _).1 e)
      simp only [h', if_false, ih, List.mem_cons, exists_eq_or_imp, h, false_or]

/-- The result of `config_get_ignored` in closed form. -/
theorem config_get_ignored_eq (cfg : Config) (inst : CStr) :
    config_get_ignored cfg inst
      = if cfg.sensor_list = [] then 0
        else if ∃ e ∈ cfg.sensor_list, eqIgnoreCase inst e then cfg.sensor_list_action
        else 1 - cfg.sensor_list_action := by
  unfold config_get_ignored
  rw [config_get_ignored_loop_eq]
  cases h : cfg.sensor_list with
  | nil => simp
  | cons s rest =>
    have : ¬ ((((s :: rest).length : Nat) : Int) < 1) := by
      simp only [List.length_cons]; omega
    simp only [this, if_false]
    simp

/-- C4: the selection filter is determined by identifier, list and invert flag: with an
empty list every identifier is accepted whatever the invert flag is; with a non-empty list
an identifier equal, ignoring ASCII case, to some entry is accepted iff invert is false, and
an identifier equal to no entry is accepted iff invert is true.  The naming flag plays no
part. -/
theorem C4_selection_filter (x : CStr) (list : List CStr) (invert : Bool) (naming : Int) :
    (list = [] → isAccepted (mkConfig list invert naming) x = true)
      ∧ (list ≠ [] → (∃ e ∈ list, eqIgnoreCase x e) →
          (isAccepted (mkConfig list invert naming) x = true ↔ invert = false))
      ∧ (list ≠ [] → (¬ ∃ e ∈ list, eqIgnoreCase x e) →
          (isAccepted (mkConfig list invert naming) x = true ↔ invert = true)) := by
  unfold isAccepted
  rw [config_get_ignored_eq]
  refine ⟨?_, ?_, ?_⟩
  · intro h
    simp [mkConfig, h]
  · intro h hex
    cases invert <;> simp [mkConfig, h, hex]
  · intro h hex
    cases invert <;> simp [mkConfig, h, hex]

/-! ## Lemmas on the `printf` conversions -/

theorem digitsRev_fuel (b : Nat) (hb : 2 ≤ b) (fuel1 fuel2 n : Nat)
    (h1 : n < fuel1) (h2 : n < fuel2) : digitsRev b fuel1 n = digitsRev b fuel2 n := by
  induction n using Nat.strong_induction_on generalizing fuel1 fuel2 with
  | _ n ih =>
    cases fuel1 with
    | zero => omega
    | succ f1 =>
      cases fuel2 with
      | zero => omega
      | succ f2 =>
        unfold digitsRev
        by_cases hn : n < b
        · simp [hn]
        · simp only [hn, if_false]
          have hdiv : n / b < n := Nat.div_lt_self (by omega) (by omega)
          rw [ih (n / b) hdiv f1 f2 (by omega) (by omega)]

theorem numeral_lt (b n : Nat) (h : n < b) : numeral b n = [digitChar n] := by
  simp [numeral, digitsRev, h]

theorem numeral_ge (b n : Nat) (hb : 2 ≤ b) (h : b ≤ n) :
    numeral b n = numeral b (n / b) ++ [digitChar (n % b)] := by
  have hn : ¬ n < b := by omega
  have hdiv : n / b < n := Nat.div_lt_self (by omega) (by omega)
  unfold numeral
  rw [show digitsRev b (n + 1) n = (n % b) :: digitsRev b n (n / b) by
    simp [digitsRev, hn]]
  rw [digitsRev_fuel b hb n (n / b + 1) (n / b) hdiv (by omega)]
  simp

theorem numeral16_2 (n : Nat) (h0 : 16 ≤ n) (h1 : n < 256) :
    numeral 16 n = [digitChar (n / 16), digitChar (n % 16)] := by
  rw [numeral_ge 16 n (by omega) h0, numeral_lt 16 (n / 16) (by omega)]
  rfl

theorem numeral16_3 (n : Nat) (h0 : 256 ≤ n) (h1 : n < 4096) :
    numeral 16 n = [digitChar (n / 256), digitChar (n / 16 % 16), digitChar (n % 16)] := by
  rw [numeral_ge 16 n (by omega) (by omega), numeral16_2 (n / 16) (by omega) (by omega)]
  have : n / 16 / 16 = n / 256 := by omega
  simp [this]

theorem numeral16_4 (n : Nat) (h0 : 4096 ≤ n) (h1 : n < 65536) :
    numeral 16 n
      = [digitChar (n / 4096), digitChar (n / 256 % 16), digitChar (n / 16 % 16),
          digitChar (n % 16)] := by
  rw [numeral_ge 16 n (by omega) (by omega), numeral16_3 (n / 16) (by omega) (by omega)]
  have e1 : n / 16 / 256 = n / 4096 := by omega
  have e2 : n / 16 / 16 = n / 256 := by omega
  simp [e1, e2]

theorem digitChar_zero : digitChar 0 = '0' := by decide

theorem zeroPad_numeral16_4 (n : Nat) (hn : n < 65536) :
    zeroPad 4 (numeral 16 n) = hexField4 n := by
  unfold hexField4
  by_cases h1 : n < 16
  · rw [numeral_lt 16 n h1]
    have e1 : n / 4096 % 16 = 0 := by omega
    have e2 : n / 256 % 16 = 0 := by omega
    have e3 : n / 16 % 16 = 0 := by omega
    have e4 : n % 16 = n := by omega
    simp [zeroPad, List.replicate, e1, e2, e3, e4, digitChar_zero]
  · by_cases h2 : n < 256
    · rw [numeral16_2 n (by omega) h2]
      have e1 : n / 4096 % 16 = 0 := by omega
      have e2 : n / 256 % 16 = 0 := by omega
      have e3 : n / 16 % 16 = n / 16 := by omega
      simp [zeroPad, List.replicate, e1, e2, e3, digitChar_zero]
    · by_cases h3 : n < 4096
      · rw [numeral16_3 n (by omega) h3]
        have e1 : n / 4096 % 16 = 0 := by omega
        have e2 : n / 256 % 16 = n / 256 := by omega
        simp [zeroPad, List.replicate, e1, e2, digitChar_zero]
      · rw [numeral16_4 n (by omega) hn]
        have e1 : n / 4096 % 16 = n / 4096 := by omega
        simp [zeroPad, e1]

theorem zeroPad_numeral16_2 (n : Nat) (hn : n < 256) :
    zeroPad 2 (numeral 16 n) = hexField2 n := by
  unfold hexField2
  by_cases h1 : n < 16
  · rw [numeral_lt 16 n h1]
    have e3 : n / 16 % 16 = 0 := by omega
    have e4 : n % 16 = n := by omega
    simp [zeroPad, List.replicate, e3, e4, digitChar_zero]
  · rw [numeral16_2 n (by omega) hn]
    have e3 : n / 16 % 16 = n / 16 := by omega
    simp [zeroPad, e3]

theorem fmt_0x_4_eq (a : Int) (h0 : 0 ≤ a) (h1 : a < 65536) :
    fmt_0x 4 a = hexField4 a.toNat := by
  obtain ⟨n, rfl⟩ := Int.eq_ofNat_of_zero_le h0
  have hn : n < 65536 := by omega
  have hmod : ((n : Int) % 2 ^ 32).toNat = n := by omega
  unfold fmt_0x
  rw [hmod]
  simpa using zeroPad_numeral16_4 n hn

theorem fmt_0x_2_eq (a : Int) (h0 : 0 ≤ a) (h1 : a < 256) :
    fmt_0x 2 a = hexField2 a.toNat := by
  obtain ⟨n, rfl⟩ := Int.eq_ofNat_of_zero_le h0
  have hn : n < 256 := by omega
  have hmod : ((n : Int) % 2 ^ 32).toNat = n := by omega
  unfold fmt_0x
  rw [hmod]
  simpa using zeroPad_numeral16_2 n hn

theorem digitValue_digitChar (d : Nat) (h : d < 16) : digitValue (digitChar d) = d := by
  interval_cases d <;> decide

theorem digitChar_mem_hex (d : Nat) (h : d < 16) : digitChar d ∈ "0123456789abcdef".toList := by
  interval_cases d <;> decide

theorem numeralValue_append (b : Nat) (s : CStr) (c : Char) :
    numeralValue b (s ++ [c]) = numeralValue b s * b + digitValue c := by
  simp [numeralValue, List.foldl_append]

/-- A numeral denotes the number it was printed from. -/
theorem numeralValue_numeral (b n : Nat) (hb : 2 ≤ b) (hb16 : b ≤ 16) :
    numeralValue b (numeral b n) = n := by
  induction n using Nat.strong_induction_on with
  | _ n ih =>
    by_cases hn : n < b
    · rw [numeral_lt b n hn]
      simp [numeralValue, digitValue_digitChar n (by omega)]
    · have hge : b ≤ n := by omega
      have hdiv : n / b < n := Nat.div_lt_self (by omega) (by omega)
      have hmod : n % b < b := Nat.mod_lt _ (by omega)
      rw [numeral_ge b n hb hge, numeralValue_append, ih (n / b) hdiv,
        digitValue_digitChar (n % b) (by omega)]
      exact Nat.div_add_mod' n b

theorem numeral_mem_hex (b n : Nat) (hb : 2 ≤ b) (hb16 : b ≤ 16) :
    ∀ c ∈ numeral b n, c ∈ "0123456789abcdef".toList := by
  induction n using Nat.strong_induction_on with
  | _ n ih =>
    by_cases hn : n < b
    · rw [numeral_lt b n hn]
      intro c hc
      simp only [List.mem_singleton] at hc
      subst hc
      exact digitChar_mem_hex n (by omega)
    · have hge : b ≤ n := by omega
      have hdiv : n / b < n := Nat.div_lt_self (by omega) (by omega)
      have hmod : n % b < b := Nat.mod_lt _ (by omega)
      rw [numeral_ge b n hb hge]
      intro c hc
      rcases List.mem_append.1 hc with h | h
      · exact ih (n / b) hdiv c h
      · simp only [List.mem_singleton] at h
        subst h
        exact digitChar_mem_hex (n % b) (by omega)

/-- A number of at least `b ^ k` has more than `k` digits. -/
theorem numeral_length_gt (b : Nat) (hb : 2 ≤ b) (k n : Nat) (h : b ^ k ≤ n) :
    k < (numeral b n).length := by
  induction k generalizing n with
  | zero =>
    by_cases hn : n < b
    · rw [numeral_lt b n hn]; simp
    · rw [numeral_ge b n hb (by omega)]; simp
  | succ k ih =>
    have hbn : b ≤ n := by
      calc b = b ^ 1 := (pow_one b).symm
        _ ≤ b ^ (k + 1) := Nat.pow_le_pow_right (by omega) (by omega)
        _ ≤ n := h
    have hdiv : b ^ k ≤ n / b := by
      rw [Nat.le_div_iff_mul_le (by omega)]
      rw [pow_succ] at h
      exact h
    rw [numeral_ge b n hb hbn]
    have := ih (n / b) hdiv
    simp only [List.length_append, List.length_singleton]
    omega

theorem numeralValue_zeroPad (b w : Nat) (s : CStr) :
    numeralValue b (zeroPad w s) = numeralValue b s := by
  unfold zeroPad numeralValue
  rw [List.foldl_append]
  have : ∀ k, List.foldl (fun acc c => acc * b + digitValue c) 0 (List.replicate k '0') = 0 := by
    intro k
    induction k with
    | zero => rfl
    | succ k ih =>
      rw [List.replicate_succ, List.foldl_cons]
      have : 0 * b + digitValue '0' = 0 := by
        have : digitValue '0' = 0 := by decide
        rw [this]; simp
      rw [this, ih]
  rw [this]

theorem zeroPad_length (w : Nat) (s : CStr) : (zeroPad w s).length = max w s.length := by
  unfold zeroPad
  simp only [List.length_append, List.length_replicate]
  omega

/-- The conversion `%0<w>x`: a lowercase hexadecimal numeral of the argument read as an
`unsigned int`, of at least `w` characters, and of more than `w` characters when the value
does not fit `w` digits. -/
theorem fmt_0x_spec (w : Nat) (v : Int) :
    numeralValue 16 (fmt_0x w v) = (v % 2 ^ 32).toNat
      ∧ w ≤ (fmt_0x w v).length
      ∧ (∀ c ∈ fmt_0x w v, c ∈ "0123456789abcdef".toList)
      ∧ (16 ^ w ≤ (v % 2 ^ 32).toNat → w < (fmt_0x w v).length) := by
  unfold fmt_0x
  refine ⟨?_, ?_, ?_, ?_⟩
  · rw [numeralValue_zeroPad, numeralValue_numeral 16 _ (by omega) (by omega)]
  · rw [zeroPad_length]; omega
  · intro c hc
    unfold zeroPad at hc
    rcases List.mem_append.1 hc with h | h
    · have := (List.mem_replicate.1 h).2
      subst this
      decide
    · exact numeral_mem_hex 16 _ (by omega) (by omega) c h
  · intro h
    rw [zeroPad_length]
    have := numeral_length_gt 16 (by omega) w _ h
    omega

/-- The conversion `%d`: the decimal numeral of the argument, with a minus sign in front
of a negative one. -/
theorem fmt_d_spec (v : Int) :
    (0 ≤ v → numeralValue 10 (fmt_d v) = v.toNat)
      ∧ (v < 0 → ∃ s, fmt_d v = '-' :: s ∧ numeralValue 10 s = (-v).toNat) := by
  unfold fmt_d
  constructor
  · intro h
    have : ¬ v < 0 := by omega
    simp only [this, if_false]
    exact numeralValue_numeral 10 _ (by omega) (by omega)
  · intro h
    simp only [h, if_true]
    exact ⟨_, rfl, numeralValue_numeral 10 _ (by omega) (by omega)⟩

/-! ## The body of the scan loop -/

theorem type_prefix_at_eq (type : Int) (h : typeInTable type) :
    type_prefix_at type = some ("/".toList ++ category_suffix type) := by
  obtain ⟨h0, h3⟩ := h
  obtain ⟨n, rfl⟩ := Int.eq_ofNat_of_zero_le h0
  have hn : n ≤ 3 := by omega
  interval_cases n <;> decide

theorem sensors_submit_eq {V : Type} (env : Env V) (cfg : Config) (feat_name : CStr)
    ( chip_prefix : CStr) (value : V) (hrec : recordsFit env) :
    sensors_submit env cfg feat_name chip_prefix value
      = if ( chip_prefix ++ "-".toList ++ feat_name).length < BUFSIZE
            ∧ isAccepted cfg ( chip_prefix ++ "-".toList ++ feat_name) = true then
          some ⟨ chip_prefix ++ "-".toList ++ feat_name,
            env.snprintf_u_3f (env.curtime % 2 ^ 32) value⟩
        else none := by
  have hbuf := hrec (env.curtime % 2 ^ 32) value
  unfold sensors_submit isAccepted
  simp only [ge_iff_le, ne_eq, decide_eq_true_eq]
  by_cases h1 : ( chip_prefix ++ "-".toList ++ feat_name).length < BUFSIZE
  · by_cases h2 : config_get_ignored cfg ( chip_prefix ++ "-".toList ++ feat_name) = 0
    · rw [if_neg (Nat.not_le.2 h1), if_neg (not_not.2 h2), if_neg (Nat.not_le.2 hbuf),
        if_pos ⟨h1, h2⟩]
    · rw [if_neg (Nat.not_le.2 h1), if_pos h2, if_neg (fun h => h2 h.2)]
  · rw [if_pos (Nat.le_of_not_lt h1), if_neg (fun h => h1 h.1)]

theorem chip_fullprefix_eq {V : Type} (env : Env V) (f : featurelist_t)
    (h : typeInTable f.type) :
    chip_fullprefix env f
      = .ok (f.chip.prefix_ ++ "-".toList ++ bus_descriptor env f.chip ++ "/".toList
          ++ category_suffix f.type) := by
  unfold chip_fullprefix bus_descriptor
  rw [type_prefix_at_eq _ h]
  have e1 : "-isa-".toList = "-".toList ++ "isa-".toList := by decide
  have e2 : "-i2c-".toList = "-".toList ++ "i2c-".toList := by decide
  by_cases hisa : f.chip.bus = env.SENSORS_CHIP_NAME_BUS_ISA
  · simp only [if_pos hisa, e1, List.append_assoc]
  · by_cases hdummy : f.chip.bus = env.SENSORS_CHIP_NAME_BUS_DUMMY
    · simp only [if_neg hisa, if_pos hdummy, List.append_assoc]
    · simp only [if_neg hisa, if_neg hdummy, e2, List.append_assoc]

/-- The body of the scan loop submits the reading of the specification. -/
theorem sensors_read_feature_eq {V : Type} (env : Env V) (cfg : Config) (f : featurelist_t)
    (hrec : recordsFit env) (htype : cfg.sensor_extended_naming ≠ 0 → typeInTable f.type) :
    sensors_read_feature env cfg f = .ok (reading env cfg f) := by
  unfold sensors_read_feature reading identifier record
  by_cases hst : (env.sensors_get_feature f.chip f.data.number).1 < 0
  · have : ¬ (0 ≤ (env.sensors_get_feature f.chip f.data.number).1) := by omega
    simp [hst, this]
  · have hst' : 0 ≤ (env.sensors_get_feature f.chip f.data.number).1 := by omega
    by_cases hext : cfg.sensor_extended_naming ≠ 0
    · simp only [hst, if_false, hext, if_true, chip_fullprefix_eq env f (htype hext), Res.bind,
        ne_eq, not_false_eq_true, hst', true_and]
      rw [sensors_submit_eq _ _ _ _ _ hrec]
      have hid : f.chip.prefix_ ++ "-".toList ++ bus_descriptor env f.chip ++ "/".toList
          ++ category_suffix f.type ++ "-".toList ++ f.data.name
          = extended_identifier env f.chip f.type f.data.name := rfl
      rw [hid]
      by_cases hlen : (extended_identifier env f.chip f.type f.data.name).length < BUFSIZE
      · have hfull : ¬ (f.chip.prefix_ ++ "-".toList ++ bus_descriptor env f.chip ++ "/".toList
            ++ category_suffix f.type).length ≥ BUFSIZE := by
          rw [← hid] at hlen
          simp only [List.length_append] at hlen ⊢
          omega
        simp only [hfull, if_false]
      · have : ¬ ((extended_identifier env f.chip f.type f.data.name).length < BUFSIZE
            ∧ isAccepted cfg (extended_identifier env f.chip f.type f.data.name) = true) :=
          fun h => hlen h.1
        simp only [this, if_false, ite_self]
    · simp only [hst, if_false, hext, hst', true_and]
      rw [sensors_submit_eq _ _ _ _ _ hrec]
      rfl

/-! ## The scan loop over a catalog in memory -/

/-- Over a well-formed list the scan loop returns, with enough fuel, the readings of the
specification for the nodes of the list, in order. -/
theorem sensors_read_loop_eq {V : Type} (env : Env V) (cfg : Config) (hrec : recordsFit env)
    (cell : Ptr → Option featurelist_t) (nodes : List featurelist_t) (fuel : Nat) (p : Ptr)
    (hlist : isList cell p nodes) (hfuel : nodes.length < fuel)
    (htype : cfg.sensor_extended_naming ≠ 0 → ∀ f ∈ nodes, typeInTable f.type) :
    sensors_read_loop env cfg fuel cell p = .ok (nodes.filterMap (reading env cfg)) := by
  induction nodes generalizing fuel p with
  | nil =>
    have hp : p = 0 := hlist
    subst hp
    cases fuel <;> simp [sensors_read_loop]
  | cons n rest ih =>
    obtain ⟨hp, hcell, hrest⟩ := hlist
    obtain ⟨q, rfl⟩ := Nat.exists_eq_succ_of_ne_zero hp
    cases fuel with
    | zero => simp at hfuel
    | succ fuel =>
      have hn : sensors_read_feature env cfg n = .ok (reading env cfg n) :=
        sensors_read_feature_eq env cfg n hrec
          (fun h => htype h n (List.mem_cons_self _ _))
      have hih := ih fuel n.next hrest (by simpa using hfuel)
        (fun h f hf => htype h f (List.mem_cons_of_mem _ hf))
      simp only [sensors_read_loop, Nat.succ_eq_add_one, hcell, hn, hih, Res.bind]
      cases hr : reading env cfg n <;> simp [List.filterMap_cons, hr]

theorem filterMap_eq_map_of_forall {α β : Type} (r : α → Option β) (g : α → β) (l : List α)
    (h : ∀ a ∈ l, r a = some (g a)) : l.filterMap r = l.map g := by
  induction l with
  | nil => rfl
  | cons a l ih =>
    rw [List.filterMap_cons, h a (List.mem_cons_self _ _)]
    simp only [List.map_cons]
    rw [ih (fun b hb => h b (List.mem_cons_of_mem _ hb))]

theorem reading_none_of_read_fails {V : Type} (env : Env V) (cfg : Config) (f : featurelist_t)
    (h : (env.sensors_get_feature f.chip f.data.number).1 < 0) : reading env cfg f = none := by
  unfold reading
  have : ¬ (0 ≤ (env.sensors_get_feature f.chip f.data.number).1) := by omega
  simp [this]

theorem reading_none_of_too_long {V : Type} (env : Env V) (cfg : Config) (f : featurelist_t)
    (h : BUFSIZE ≤ (identifier env cfg f).length) : reading env cfg f = none := by
  unfold reading
  have : ¬ ((identifier env cfg f).length < BUFSIZE) := by omega
  simp [this]

theorem reading_eq_some_iff {V : Type} (env : Env V) (cfg : Config) (f : featurelist_t)
    (sub : Submission) :
    reading env cfg f = some sub ↔
      (0 ≤ (env.sensors_get_feature f.chip f.data.number).1
        ∧ (identifier env cfg f).length < BUFSIZE
        ∧ isAccepted cfg (identifier env cfg f) = true)
      ∧ sub = ⟨identifier env cfg f, record env f⟩ := by
  unfold reading
  by_cases h : 0 ≤ (env.sensors_get_feature f.chip f.data.number).1
      ∧ (identifier env cfg f).length < BUFSIZE
      ∧ isAccepted cfg (identifier env cfg f) = true
  · rw [if_pos h]
    simp only [Option.some.injEq, h, true_and, and_self]
    exact eq_comm
  · rw [if_neg h]
    simp [h]

theorem sampleEnv_recordsFit : recordsFit sampleEnv := by
  intro t v
  show ("1000:42.000".toList).length < BUFSIZE
  decide

/-- C5 (amended): under extended naming, for every catalog entry (category within the
suffix table) the scan cycle submits, when the read succeeds and the identifier fits the
buffer and passes the filter, exactly the identifier
`<chip-prefix>-<bus-descriptor>/<category-suffix>-<rawLabel>`; the bus descriptor is
`isa-<address>` for an ISA chip, `<bus name>-<address>` for a named (dummy) bus and
`i2c-<decimal bus number>-<address>` for a numbered bus, the address being printed in
lowercase hexadecimal padded with zeros to at least 4, 4 and 2 digits: exactly the 4
(resp. 2) digits of the address when it lies in `0..0xffff` (resp. `0..0xff`), and more
digits, none of them cut, for an address beyond that. -/
theorem C5_extended_identifier {V : Type} (env : Env V) (cfg : Config) (f : featurelist_t)
    (hext : cfg.sensor_extended_naming ≠ 0) (hcat : typeInTable f.type)
    (hrec : recordsFit env) :
    sensors_read_feature env cfg f
        = .ok (if 0 ≤ (env.sensors_get_feature f.chip f.data.number).1
              ∧ (extended_identifier env f.chip f.type f.data.name).length < BUFSIZE
              ∧ isAccepted cfg (extended_identifier env f.chip f.type f.data.name) = true then
            some ⟨extended_identifier env f.chip f.type f.data.name, record env f⟩
          else none)
      ∧ extended_identifier env f.chip f.type f.data.name
          = f.chip.prefix_ ++ "-".toList ++ bus_descriptor env f.chip ++ "/".toList
              ++ category_suffix f.type ++ "-".toList ++ f.data.name
      ∧ (f.chip.bus = env.SENSORS_CHIP_NAME_BUS_ISA → 0 ≤ f.chip.addr → f.chip.addr < 65536 →
          bus_descriptor env f.chip = "isa-".toList ++ hexField4 f.chip.addr.toNat)
      ∧ (f.chip.bus ≠ env.SENSORS_CHIP_NAME_BUS_ISA →
          f.chip.bus = env.SENSORS_CHIP_NAME_BUS_DUMMY → 0 ≤ f.chip.addr → f.chip.addr < 65536 →
          bus_descriptor env f.chip
            = f.chip.busname ++ "-".toList ++ hexField4 f.chip.addr.toNat)
      ∧ (f.chip.bus ≠ env.SENSORS_CHIP_NAME_BUS_ISA →
          f.chip.bus ≠ env.SENSORS_CHIP_NAME_BUS_DUMMY → 0 ≤ f.chip.addr → f.chip.addr < 256 →
          bus_descriptor env f.chip
            = "i2c-".toList ++ fmt_d f.chip.bus ++ "-".toList ++ hexField2 f.chip.addr.toNat)
      ∧ (f.type = SENSOR_TYPE_VOLTAGE → category_suffix f.type = "voltage".toList)
      ∧ (f.type = SENSOR_TYPE_FANSPEED → category_suffix f.type = "fanspeed".toList)
      ∧ (f.type = SENSOR_TYPE_TEMPERATURE → category_suffix f.type = "temperature".toList)
      ∧ (∀ w, numeralValue 16 (fmt_0x w f.chip.addr) = (f.chip.addr % 2 ^ 32).toNat
          ∧ w ≤ (fmt_0x w f.chip.addr).length
          ∧ (∀ c ∈ fmt_0x w f.chip.addr, c ∈ "0123456789abcdef".toList)
          ∧ (16 ^ w ≤ (f.chip.addr % 2 ^ 32).toNat → w < (fmt_0x w f.chip.addr).length))
      ∧ (0 ≤ f.chip.bus → numeralValue 10 (fmt_d f.chip.bus) = f.chip.bus.toNat) := by
  refine ⟨?_, rfl, ?_, ?_, ?_, ?_, ?_, ?_, fun w => fmt_0x_spec w f.chip.addr,
    (fmt_d_spec f.chip.bus).1⟩
  · rw [sensors_read_feature_eq env cfg f hrec (fun _ => hcat)]
    simp only [reading, identifier, hext, if_true, ne_eq, not_false_eq_true]
  · intro hisa h0 h1
    simp only [bus_descriptor, if_pos hisa, fmt_0x_4_eq _ h0 h1]
  · intro hisa hdummy h0 h1
    simp only [bus_descriptor, if_neg hisa, if_pos hdummy, fmt_0x_4_eq _ h0 h1]
  · intro hisa hdummy h0 h1
    simp only [bus_descriptor, if_neg hisa, if_neg hdummy, fmt_0x_2_eq _ h0 h1]
  · intro h; rw [h]; decide
  · intro h; rw [h]; decide
  · intro h; rw [h]; decide

theorem C5_extended_identifier_witness :
    sensors_read_feature sampleEnv extendedConfig (sampleNode 0)
      = .ok (some ⟨"p-isa-002d/temperature-temp1".toList, "1000:42.000".toList⟩) :=
  (C5_extended_identifier sampleEnv extendedConfig (sampleNode 0) (by decide) (by decide)
    sampleEnv_recordsFit).1.trans (by decide)

/-- C5 as stated fails: a chip on the numbered bus `0` at address `0x150` is submitted with
the three-digit address field `150`, so the identifier is not the prefix, `-i2c-0-`, two
digits and the rest. -/
theorem C5_counterexample :
    sensors_read_feature sampleEnv extendedConfig wideNode
        = .ok (some ⟨"lm75-i2c-0-150/temperature-temp".toList, "1000:42.000".toList⟩)
      ∧ ¬ ∃ digits : CStr, digits.length = 2
          ∧ "lm75-i2c-0-150/temperature-temp".toList
              = "lm75".toList ++ "-".toList ++ ("i2c-".toList ++ "0".toList ++ "-".toList ++ digits)
                  ++ "/".toList ++ "temperature".toList ++ "-".toList ++ "temp".toList := by
  refine ⟨by decide, ?_⟩
  rintro ⟨digits, hlen, heq⟩
  have := congrArg List.length heq
  simp [hlen] at this

/-- C6: under legacy naming the scan cycle submits for a catalog entry, when the read
succeeds and the identifier fits the buffer and passes the filter, exactly the identifier
`<chip-prefix>-<rawLabel>`; two entries with the same chip prefix and raw label are
submitted under the same identifier, whatever their bus, bus name, address and category. -/
theorem C6_legacy_identifier {V : Type} (env : Env V) (cfg : Config) (f : featurelist_t)
    (hleg : cfg.sensor_extended_naming = 0) (hrec : recordsFit env) :
    sensors_read_feature env cfg f
        = .ok (if 0 ≤ (env.sensors_get_feature f.chip f.data.number).1
              ∧ (f.chip.prefix_ ++ "-".toList ++ f.data.name).length < BUFSIZE
              ∧ isAccepted cfg (f.chip.prefix_ ++ "-".toList ++ f.data.name) = true then
            some ⟨f.chip.prefix_ ++ "-".toList ++ f.data.name, record env f⟩
          else none)
      ∧ ∀ (g : featurelist_t) (sub sub' : Submission),
          g.chip.prefix_ = f.chip.prefix_ → g.data.name = f.data.name →
          sensors_read_feature env cfg f = .ok (some sub) →
          sensors_read_feature env cfg g = .ok (some sub') → sub'.inst = sub.inst := by
  have hno : ¬ cfg.sensor_extended_naming ≠ 0 := fun h => h hleg
  have key : ∀ g : featurelist_t, sensors_read_feature env cfg g
      = .ok (if 0 ≤ (env.sensors_get_feature g.chip g.data.number).1
              ∧ (g.chip.prefix_ ++ "-".toList ++ g.data.name).length < BUFSIZE
              ∧ isAccepted cfg (g.chip.prefix_ ++ "-".toList ++ g.data.name) = true then
            some ⟨g.chip.prefix_ ++ "-".toList ++ g.data.name, record env g⟩
          else none) := by
    intro g
    rw [sensors_read_feature_eq env cfg g hrec (fun h => absurd h hno)]
    simp only [reading, identifier, if_neg hno, legacy_identifier]
  refine ⟨key f, ?_⟩
  intro g sub sub' hp hn hf hg
  rw [key f] at hf
  rw [key g] at hg
  simp only [Res.ok.injEq] at hf hg
  split at hf
  · split at hg
    · simp only [Option.some.injEq] at hf hg
      rw [← hf, ← hg, hp, hn]
    · simp at hg
  · simp at hf

theorem C6_legacy_identifier_witness :
    sensors_read_feature sampleEnv legacyConfig (sampleNode 0)
      = .ok (some ⟨"p-temp1".toList, "1000:42.000".toList⟩) :=
  (C6_legacy_identifier sampleEnv legacyConfig (sampleNode 0) (by decide)
    sampleEnv_recordsFit).1.trans (by decide)

/-- C7: one scan cycle over a well-formed catalog submits, in catalog order, exactly one
reading for each entry whose provider read succeeds, whose identifier fits the buffer and
whose identifier is accepted by the selection filter, and nothing for any other entry; a
failing read does not stop the iteration: when the read of exactly one entry fails and all
the others are read, fit and pass the filter, the readings of all the other entries are
submitted, in order, one fewer than there are entries. -/
theorem C7_scan_cycle {V : Type} (env : Env V) (cfg : Config) (fuel : Nat) (s : State)
    (nodes : List featurelist_t) (hlist : isList s.cell s.first_feature nodes)
    (hfuel : nodes.length < fuel)
    (htype : cfg.sensor_extended_naming ≠ 0 → ∀ f ∈ nodes, typeInTable f.type)
    (hrec : recordsFit env) :
    sensors_read env cfg fuel s = .ok (nodes.filterMap (reading env cfg))
      ∧ ∀ (pre post : List featurelist_t) (f : featurelist_t), nodes = pre ++ f :: post →
          (env.sensors_get_feature f.chip f.data.number).1 < 0 →
          (∀ g ∈ pre ++ post, 0 ≤ (env.sensors_get_feature g.chip g.data.number).1
              ∧ (identifier env cfg g).length < BUFSIZE
              ∧ isAccepted cfg (identifier env cfg g) = true) →
          sensors_read env cfg fuel s
              = .ok ((pre ++ post).map fun g => ⟨identifier env cfg g, record env g⟩)
            ∧ ((pre ++ post).map fun g =>
                (⟨identifier env cfg g, record env g⟩ : Submission)).length
                = nodes.length - 1 := by
  have hmain : sensors_read env cfg fuel s = .ok (nodes.filterMap (reading env cfg)) :=
    sensors_read_loop_eq env cfg hrec s.cell nodes fuel s.first_feature hlist hfuel htype
  refine ⟨hmain, ?_⟩
  intro pre post f hsplit hfail hothers
  have hsome : ∀ g ∈ pre ++ post,
      reading env cfg g = some ⟨identifier env cfg g, record env g⟩ := by
    intro g hg
    rw [reading_eq_some_iff]
    exact ⟨hothers g hg, rfl⟩
  constructor
  · rw [hmain, hsplit, List.filterMap_append, List.filterMap_cons,
      reading_none_of_read_fails env cfg f hfail, List.map_append]
    simp only
    rw [filterMap_eq_map_of_forall _ _ pre (fun g hg => hsome g (List.mem_append_left _ hg)),
      filterMap_eq_map_of_forall _ _ post (fun g hg => hsome g (List.mem_append_right _ hg))]
  · rw [hsplit]
    simp

theorem threeState_isList :
    isList threeState.cell threeState.first_feature
      [sampleNode 2, sampleNodeFan 3, sampleNodeI2c 0] := by
  decide

theorem C7_scan_cycle_witness :
    sensors_read sampleEnv extendedConfig 4 threeState
      = .ok [⟨"p-isa-002d/temperature-temp1".toList, "1000:42.000".toList⟩,
          ⟨"lm75-i2c-0-48/temperature-temp".toList, "1000:42.000".toList⟩] :=
  ((C7_scan_cycle sampleEnv extendedConfig 4 threeState
      [sampleNode 2, sampleNodeFan 3, sampleNodeI2c 0] threeState_isList (by decide)
      (fun _ => by decide) sampleEnv_recordsFit).2
    [sampleNode 2] [sampleNodeI2c 0] (sampleNodeFan 3) rfl (by decide) (by decide)).1.trans
    (by decide)

/-! ## Lists in memory -/

theorem isList_unique (cell : Ptr → Option featurelist_t) (p : Ptr)
    (l1 l2 : List featurelist_t) (h1 : isList cell p l1) (h2 : isList cell p l2) : l1 = l2 := by
  induction l1 generalizing p l2 with
  | nil =>
    cases l2 with
    | nil => rfl
    | cons n rest => exact absurd h1 h2.1
  | cons n rest ih =>
    cases l2 with
    | nil => exact absurd h2 h1.1
    | cons m rest2 =>
      obtain ⟨-, hc1, hr1⟩ := h1
      obtain ⟨-, hc2, hr2⟩ := h2
      have hnm : n = m := by
        rw [hc1] at hc2
        exact Option.some.inj hc2
      subst hnm
      rw [ih n.next rest2 hr1 hr2]

/-- From every address of a list a non-empty tail of the list starts. -/
theorem isList_of_mem_chain_addrs (cell : Ptr → Option featurelist_t) (p q : Ptr)
    (l : List featurelist_t) (h : isList cell p l) (hq : q ∈ chain_addrs p l) :
    ∃ l', isList cell q l' ∧ l' ≠ [] ∧ l'.length ≤ l.length := by
  induction l generalizing p with
  | nil => simp [chain_addrs] at hq
  | cons n rest ih =>
    simp only [chain_addrs, List.mem_cons] at hq
    rcases hq with rfl | hq
    · exact ⟨n :: rest, h, by simp, le_refl _⟩
    · obtain ⟨l', h1, h2, h3⟩ := ih n.next h.2.2 hq
      exact ⟨l', h1, h2, by simp only [List.length_cons]; omega⟩

/-- A list in memory does not come back to its first node. -/
theorem isList_acyclic (cell : Ptr → Option featurelist_t) (p : Ptr) (n : featurelist_t)
    (rest : List featurelist_t) (h : isList cell p (n :: rest)) :
    p ∉ chain_addrs n.next rest := by
  intro hmem
  obtain ⟨l', h1, -, h3⟩ := isList_of_mem_chain_addrs cell n.next p rest h.2.2 hmem
  have := isList_unique cell p _ _ h h1
  rw [← this] at h3
  simp at h3

theorem isList_store (cell : Ptr → Option featurelist_t) (p q : Ptr)
    (v : Option featurelist_t) (l : List featurelist_t) (h : isList cell p l)
    (hq : q ∉ chain_addrs p l) : isList (store cell q v) p l := by
  induction l generalizing p with
  | nil => exact h
  | cons n rest ih =>
    simp only [chain_addrs, List.mem_cons, not_or] at hq
    obtain ⟨hp, hc, hr⟩ := h
    refine ⟨hp, ?_, ih n.next hr hq.2⟩
    have : ¬ p = q := fun e => hq.1 e.symm
    simp only [store, this, if_false, hc]

/-- The loop that frees the old list runs to its end over a well-formed list: it leaves
`last_feature` at `NULL`, frees the nodes of the list and nothing else. -/
theorem free_features_spec (cell : Ptr → Option featurelist_t) (p : Ptr)
    (nodes : List featurelist_t) (fuel : Nat) (lf : Ptr) (h : isList cell p nodes)
    (hfuel : nodes.length ≤ fuel) :
    ∃ cell', free_features fuel cell p lf = .ok (cell', if nodes = [] then lf else 0)
      ∧ (∀ q, q ∈ chain_addrs p nodes → cell' q = none)
      ∧ ∀ q, q ∉ chain_addrs p nodes → cell' q = cell q := by
  induction nodes generalizing cell p fuel lf with
  | nil =>
    have hp : p = 0 := h
    subst hp
    refine ⟨cell, ?_, ?_, ?_⟩
    · cases fuel <;> simp [free_features]
    · intro q hq; simp [chain_addrs] at hq
    · intro q _; rfl
  | cons n rest ih =>
    have hacyc := isList_acyclic cell p n rest h
    obtain ⟨hp, hc, hr⟩ := h
    obtain ⟨k, rfl⟩ := Nat.exists_eq_succ_of_ne_zero hp
    cases fuel with
    | zero => simp at hfuel
    | succ fuel =>
      have hr' := isList_store cell n.next (k + 1) none rest hr hacyc
      obtain ⟨cell', h1, h2, h3⟩ := ih (store cell (k + 1) none) n.next fuel n.next hr'
        (by simpa using hfuel)
      refine ⟨cell', ?_, ?_, ?_⟩
      · simp only [free_features, Nat.succ_eq_add_one, hc, h1]
        cases rest with
        | nil =>
          have : n.next = 0 := hr
          simp [this]
        | cons m rest' => simp
      · intro q hq
        simp only [chain_addrs, List.mem_cons] at hq
        by_cases hmem : q ∈ chain_addrs n.next rest
        · exact h2 q hmem
        · rcases hq with rfl | hq
          · rw [h3 _ hmem]; simp [store]
          · exact absurd hq hmem
      · intro q hq
        simp only [chain_addrs, List.mem_cons, not_or] at hq
        rw [h3 q hq.2]
        simp [store, hq.1]

/-- A rebuild while the provider is unavailable: the loop frees the nodes of the old list
and the function returns without assigning `first_feature`.  From the empty catalog the
catalog stays empty and the next scan submits nothing; from a non-empty catalog
`first_feature` is left pointing at freed memory and the next scan reads through it. -/
theorem init_provider_unavailable {V : Type} (env : Env V) (cfg : Config) (fuel fuel' : Nat)
    (s : State) (nodes : List featurelist_t) (hlist : isList s.cell s.first_feature nodes)
    (hfuel : nodes.length ≤ fuel) (hdown : env.conf_opens = false ∨ env.sensors_init ≠ 0) :
    ∃ s', collectd_sensors_init env fuel s = .ok s'
      ∧ s'.first_feature = s.first_feature
      ∧ (nodes = [] → s'.first_feature = 0 ∧ sensors_read env cfg fuel' s' = .ok [])
      ∧ (nodes ≠ [] → s'.first_feature ≠ 0 ∧ s'.cell s'.first_feature = none
          ∧ (0 < fuel' → sensors_read env cfg fuel' s' = .fault Fault.use_after_free)) := by
  obtain ⟨cell', h1, h2, -⟩ := free_features_spec s.cell s.first_feature nodes fuel 0 hlist hfuel
  refine ⟨⟨s.first_feature, cell', s.brk⟩, ?_, rfl, ?_, ?_⟩
  · unfold collectd_sensors_init
    rw [h1]
    rcases hdown with hd | hd
    · simp [Res.bind, hd]
    · simp [Res.bind, hd]
  · intro hnil
    subst hnil
    have hp : s.first_feature = 0 := hlist
    refine ⟨hp, ?_⟩
    simp only [sensors_read, hp]
    cases fuel' <;> simp [sensors_read_loop]
  · intro hne
    cases nodes with
    | nil => exact absurd rfl hne
    | cons n rest =>
      obtain ⟨hp, -, -⟩ := hlist
      have hfreed : cell' s.first_feature = none := h2 _ (by simp [chain_addrs])
      refine ⟨hp, hfreed, ?_⟩
      intro hpos
      obtain ⟨k, hk⟩ := Nat.exists_eq_succ_of_ne_zero hp
      obtain ⟨f, rfl⟩ := Nat.exists_eq_succ_of_ne_zero (Nat.pos_iff_ne_zero.1 hpos)
      simp only [sensors_read]
      rw [hk] at hfreed ⊢
      simp [sensors_read_loop, hfreed, bad_pointer]

/-- C8 (failing input): a rebuild with the provider configuration unreadable, or with
`sensors_init` failing, started from a well-formed catalog of one entry, frees the node but
leaves `first_feature` pointing at it; the next scan cycle then reads freed memory instead
of submitting nothing. -/
theorem C8_rebuild_leaves_freed_catalog :
    isList oneState.cell oneState.first_feature [sampleNode 0]
      ∧ sampleEnvDown.conf_opens = false
      ∧ (∃ s', collectd_sensors_init sampleEnvDown 1 oneState = .ok s'
          ∧ s'.first_feature = 1 ∧ s'.cell 1 = none
          ∧ sensors_read sampleEnvDown legacyConfig 2 s' = .fault Fault.use_after_free
          ∧ sensors_read sampleEnvDown legacyConfig 2 s' ≠ .ok [])
      ∧ sampleEnvInitFails.sensors_init ≠ 0
      ∧ ∃ s', collectd_sensors_init sampleEnvInitFails 1 oneState = .ok s'
          ∧ s'.first_feature = 1 ∧ s'.cell 1 = none
          ∧ sensors_read sampleEnvInitFails legacyConfig 2 s' = .fault Fault.use_after_free
          ∧ sensors_read sampleEnvInitFails legacyConfig 2 s' ≠ .ok [] :=
  ⟨by decide, rfl, ⟨_, rfl, rfl, rfl, rfl, by decide⟩, by decide,
    ⟨_, rfl, rfl, rfl, rfl, by decide⟩⟩

/-! ## Building the list -/

theorem layout_length (base : Nat) (es : List FeatureEntry) :
    (layout base es).length = es.length := by
  induction es generalizing base with
  | nil => rfl
  | cons e rest ih => simp [layout, ih]

theorem layout_map_entry (base : Nat) (es : List FeatureEntry) :
    (layout base es).map featurelist_t.entry = es := by
  induction es generalizing base with
  | nil => rfl
  | cons e rest ih => simp [layout, ih, featurelist_t.entry]

/-- Appending a node behind the last node of a list laid out at consecutive addresses. -/
theorem isList_layout_append (cell : Ptr → Option featurelist_t) (base : Nat)
    (acc : List FeatureEntry) (e : FeatureEntry) (hne : acc ≠ [])
    (h : isList cell (base + 1) (layout base acc)) :
    ∃ last, store cell (base + acc.length + 1) (some ⟨e.chip, e.data, e.type, 0⟩)
          (base + acc.length) = some last
      ∧ isList
          (store (store cell (base + acc.length + 1) (some ⟨e.chip, e.data, e.type, 0⟩))
            (base + acc.length) (some { last with next := base + acc.length + 1 }))
          (base + 1) (layout base (acc ++ [e])) := by
  induction acc generalizing base with
  | nil => exact absurd rfl hne
  | cons a rest ih =>
    cases rest with
    | nil =>
      obtain ⟨-, hc, -⟩ := h
      have hlen : base + [a].length = base + 1 := rfl
      rw [hlen]
      have n1 : ¬ base + 1 = base + 1 + 1 := by omega
      have n2 : ¬ base + 1 + 1 = base + 1 := by omega
      refine ⟨⟨a.chip, a.data, a.type, 0⟩, ?_, ?_⟩
      · simp only [store, if_neg n1]
        simpa [layout] using hc
      · show isList _ (base + 1)
          [⟨a.chip, a.data, a.type, if [e] = [] then 0 else base + 2⟩,
            ⟨e.chip, e.data, e.type, if ([] : List FeatureEntry) = [] then 0 else base + 1 + 2⟩]
        refine ⟨Nat.succ_ne_zero _, ?_, Nat.succ_ne_zero _, ?_, ?_⟩
        · simp [store]
        · simp only [store, List.cons_ne_nil, if_false]
          rw [if_neg n2]
          simp
        · simp [isList]
    | cons a' rest' =>
      obtain ⟨hp, hc, hr⟩ := h
      have hnext : (⟨a.chip, a.data, a.type,
          if (a' :: rest') = [] then 0 else base + 2⟩ : featurelist_t).next = base + 1 + 1 := by
        simp
      rw [hnext] at hr
      obtain ⟨last, hl, hlist⟩ := ih (base + 1) (by simp) hr
      have e1 : base + 1 + (a' :: rest').length + 1 = base + (a :: a' :: rest').length + 1 := by
        simp only [List.length_cons]; omega
      have e2 : base + 1 + (a' :: rest').length = base + (a :: a' :: rest').length := by
        simp only [List.length_cons]; omega
      rw [e1, e2] at hl hlist
      have n1 : ¬ base + 1 = base + (a :: a' :: rest').length := by
        simp only [List.length_cons]; omega
      have n2 : ¬ base + 1 = base + (a :: a' :: rest').length + 1 := by
        simp only [List.length_cons]; omega
      refine ⟨last, hl, ?_⟩
      show isList _ (base + 1)
        (⟨a.chip, a.data, a.type, if (a' :: (rest' ++ [e])) = [] then 0 else base + 2⟩
          :: layout (base + 1) ((a' :: rest') ++ [e]))
      refine ⟨Nat.succ_ne_zero _, ?_, ?_⟩
      · simp only [store, n1, n2, if_false]
        simpa using hc
      · exact hlist

theorem add_feature_spec {V : Type} (env : Env V) (hmem : mallocSucceeds env)
    (chip : sensors_chip_name) (data : sensors_feature_data) (b : Build) (brk0 : Nat)
    (acc : List FeatureEntry) (h : BuildInv brk0 b acc) :
    ∃ b', add_feature env chip data b = .ok b'
      ∧ BuildInv brk0 b' (acc ++ (catalogued env (chip, data)).toList) := by
  unfold add_feature catalogued
  by_cases hmap : data.mapping = env.SENSORS_NO_MAPPING
  · simp only [hmap, ne_eq, not_true_eq_false, if_false, if_true]
    cases hcl : classify data.name with
    | none => exact ⟨b, rfl, by simpa using h⟩
    | some type =>
      by_cases hign : env.sensors_get_ignored chip data.number = 0
      · simp only [hign, if_true]
        exact ⟨b, rfl, by simpa using h⟩
      · simp only [hign, if_false, hmem b.brk, Bool.true_eq_false, Option.toList_some]
        obtain ⟨hbrk, hfirst, hlast, hlist⟩ := h
        by_cases hacc : acc = []
        · subst hacc
          have hf0 : b.first_feature = 0 := by simpa using hfirst
          simp only [hf0, if_true]
          refine ⟨_, rfl, ?_, ?_, ?_, ?_⟩
          · simp [hbrk]
          · simp [hbrk]
          · intro _; simp [hbrk]
          · show isList _ (b.brk + 1) [⟨chip, data, type, if ([] : List FeatureEntry) = [] then 0
              else brk0 + 2⟩]
            refine ⟨Nat.succ_ne_zero _, ?_, ?_⟩
            · simp [store]
            · simp [isList]
        · have hf : b.first_feature = brk0 + 1 := by simpa [hacc] using hfirst
          have hf0 : ¬ b.first_feature = 0 := by rw [hf]; exact Nat.succ_ne_zero _
          rw [hf] at hlist
          obtain ⟨last, hl, hnew⟩ :=
            isList_layout_append b.cell brk0 acc ⟨chip, data, type⟩ hacc hlist
          simp only [hf0, if_false, hbrk, hlast hacc, hl]
          refine ⟨_, rfl, ?_, ?_, ?_, ?_⟩
          · show brk0 + acc.length + 1 = brk0 + (acc ++ [(⟨chip, data, type⟩ : FeatureEntry)]).length
            simp only [List.length_append, List.length_singleton]; omega
          · simp [hf]
          · intro _
            show brk0 + acc.length + 1 = brk0 + (acc ++ [(⟨chip, data, type⟩ : FeatureEntry)]).length
            simp only [List.length_append, List.length_singleton]; omega
          · simpa [hf] using hnew
  · simp only [hmap, ne_eq, not_false_eq_true, if_true, if_false]
    exact ⟨b, rfl, by simpa using h⟩

theorem features_loop_spec {V : Type} (env : Env V) (hmem : mallocSucceeds env)
    (chip : sensors_chip_name) (features : List sensors_feature_data) (b : Build) (brk0 : Nat)
    (acc : List FeatureEntry) (h : BuildInv brk0 b acc) :
    ∃ b', features_loop env chip features b = .ok b'
      ∧ BuildInv brk0 b'
          (acc ++ (features.map fun d => (chip, d)).filterMap (catalogued env)) := by
  induction features generalizing b acc with
  | nil => exact ⟨b, rfl, by simpa using h⟩
  | cons data rest ih =>
    obtain ⟨b1, h1, hinv1⟩ := add_feature_spec env hmem chip data b brk0 acc h
    obtain ⟨b2, h2, hinv2⟩ := ih b1 _ hinv1
    refine ⟨b2, ?_, ?_⟩
    · simp only [features_loop, h1, Res.bind, h2]
    · have e : acc ++ (catalogued env (chip, data)).toList
          ++ (rest.map fun d => (chip, d)).filterMap (catalogued env)
          = acc ++ ((data :: rest).map fun d => (chip, d)).filterMap (catalogued env) := by
        simp only [List.map_cons, List.filterMap_cons, List.append_assoc]
        cases catalogued env (chip, data) <;> simp
      rw [← e]
      exact hinv2

theorem chips_loop_spec {V : Type} (env : Env V) (hmem : mallocSucceeds env)
    (chips : List (sensors_chip_name × List sensors_feature_data)) (b : Build) (brk0 : Nat)
    (acc : List FeatureEntry) (h : BuildInv brk0 b acc) :
    ∃ b', chips_loop env chips b = .ok b'
      ∧ BuildInv brk0 b'
          (acc ++ ((chips.map fun cf => cf.2.map fun d => (cf.1, d)).flatten).filterMap
            (catalogued env)) := by
  induction chips generalizing b acc with
  | nil => exact ⟨b, rfl, by simpa using h⟩
  | cons cf rest ih =>
    obtain ⟨chip, features⟩ := cf
    obtain ⟨b1, h1, hinv1⟩ := features_loop_spec env hmem chip features b brk0 acc h
    obtain ⟨b2, h2, hinv2⟩ := ih b1 _ hinv1
    refine ⟨b2, ?_, ?_⟩
    · simp only [chips_loop, h1, Res.bind, h2]
    · simpa [List.filterMap_append, List.append_assoc] using hinv2

/-- A rebuild from the empty catalog with the provider available and enough memory builds
the catalog of the specification, laid out at consecutive addresses. -/
theorem init_from_empty {V : Type} (env : Env V) (fuel : Nat) (s : State)
    (hempty : s.first_feature = 0) (hconf : env.conf_opens = true)
    (hinit : env.sensors_init = 0) (hmem : mallocSucceeds env) :
    ∃ s', collectd_sensors_init env fuel s = .ok s'
      ∧ isList s'.cell s'.first_feature (layout s.brk (expected_catalog env)) := by
  have h0 : free_features fuel s.cell 0 0 = .ok (s.cell, 0) := by
    cases fuel <;> simp [free_features]
  have hinv : BuildInv s.brk ⟨0, 0, s.cell, s.brk⟩ [] :=
    ⟨rfl, rfl, fun h => absurd rfl h, rfl⟩
  obtain ⟨b, hb, hbinv⟩ := chips_loop_spec env hmem env.chips _ s.brk [] hinv
  refine ⟨⟨b.first_feature, b.cell, b.brk⟩, ?_, ?_⟩
  · unfold collectd_sensors_init
    rw [hempty, h0]
    simp only [Res.bind, hconf, hinit, hb]
    simp
  · simpa [expected_catalog, enumerated] using hbinv.2.2.2

theorem catalogued_eq_some {V : Type} (env : Env V)
    (cd : sensors_chip_name × sensors_feature_data) (e : FeatureEntry)
    (h : catalogued env cd = some e) :
    (e.chip, e.data) = cd ∧ e.data.mapping = env.SENSORS_NO_MAPPING
      ∧ classify e.data.name = some e.type
      ∧ env.sensors_get_ignored e.chip e.data.number ≠ 0 := by
  unfold catalogued at h
  split at h
  · next hmap =>
    split at h
    · next category hcl =>
      split at h
      · simp at h
      · next hign =>
        simp only [Option.some.injEq] at h
        subst h
        exact ⟨rfl, hmap, hcl, hign⟩
    · simp at h
  · simp at h

theorem expected_catalog_pairs {V : Type} (env : Env V)
    (l : List (sensors_chip_name × sensors_feature_data)) :
    (l.filterMap (catalogued env)).map (fun e => (e.chip, e.data))
      = l.filter fun cd => (catalogued env cd).isSome := by
  induction l with
  | nil => rfl
  | cons cd rest ih =>
    rw [List.filterMap_cons, List.filter_cons]
    cases h : catalogued env cd with
    | none => simpa using ih
    | some e =>
      have := (catalogued_eq_some env cd e h).1
      simp [ih, this]

/-- C9 (amended): a rebuild that starts from the empty catalog, with a successful provider
init and with every allocation succeeding, leaves as catalog exactly, in provider
enumeration order, the entries (chip, feature, category) of the enumerated features that
are master features, whose raw label the classifier assigns a category, and that the
provider does not report as ignored; the category is the classifier's result.  Mapped,
unclassified and natively ignored features are absent, and a pair enumerated once appears
at most once. -/
theorem C9_rebuild_from_empty {V : Type} (env : Env V) (fuel : Nat) (s : State)
    (hempty : s.first_feature = 0) (hconf : env.conf_opens = true)
    (hinit : env.sensors_init = 0) (hmem : mallocSucceeds env) :
    ∃ s' nodes, collectd_sensors_init env fuel s = .ok s'
      ∧ isList s'.cell s'.first_feature nodes
      ∧ nodes.map featurelist_t.entry
          = (enumerated env).filterMap (catalogued env)
      ∧ (∀ e ∈ nodes.map featurelist_t.entry,
          (e.chip, e.data) ∈ enumerated env
            ∧ e.data.mapping = env.SENSORS_NO_MAPPING
            ∧ classify e.data.name = some e.type
            ∧ env.sensors_get_ignored e.chip e.data.number ≠ 0)
      ∧ (∀ (c : sensors_chip_name) (d : sensors_feature_data),
          (d.mapping ≠ env.SENSORS_NO_MAPPING ∨ classify d.name = none
            ∨ env.sensors_get_ignored c d.number = 0) →
          ∀ e ∈ nodes.map featurelist_t.entry, ¬ (e.chip = c ∧ e.data = d))
      ∧ ∀ (c : sensors_chip_name) (d : sensors_feature_data),
          (enumerated env).count (c, d) ≤ 1 →
          ((nodes.map featurelist_t.entry).map fun e => (e.chip, e.data)).count (c, d) ≤ 1 := by
  obtain ⟨s', hs', hlist⟩ := init_from_empty env fuel s hempty hconf hinit hmem
  have hmapeq : (layout s.brk (expected_catalog env)).map featurelist_t.entry
      = (enumerated env).filterMap (catalogued env) := layout_map_entry _ _
  have hprop : ∀ e ∈ (enumerated env).filterMap (catalogued env),
      (e.chip, e.data) ∈ enumerated env
        ∧ e.data.mapping = env.SENSORS_NO_MAPPING
        ∧ classify e.data.name = some e.type
        ∧ env.sensors_get_ignored e.chip e.data.number ≠ 0 := by
    intro e he
    obtain ⟨cd, hcd, hcat⟩ := List.mem_filterMap.1 he
    obtain ⟨h1, h2, h3, h4⟩ := catalogued_eq_some env cd e hcat
    exact ⟨h1 ▸ hcd, h2, h3, h4⟩
  refine ⟨s', _, hs', hlist, hmapeq, ?_, ?_, ?_⟩
  · rw [hmapeq]
    exact hprop
  · rw [hmapeq]
    rintro c d hskip e he ⟨rfl, rfl⟩
    obtain ⟨-, h2, h3, h4⟩ := hprop e he
    rcases hskip with h | h | h
    · exact h h2
    · rw [h] at h3
      exact absurd h3 (by simp)
    · exact h4 h
  · rw [hmapeq, expected_catalog_pairs]
    intro c d hcount
    exact le_trans (List.Sublist.count_le (List.filter_sublist _) _) hcount

theorem C9_rebuild_from_empty_witness :
    ∃ s', collectd_sensors_init sampleEnv 0 emptyState = .ok s'
      ∧ isList s'.cell s'.first_feature [sampleNode 2, sampleNodeFan 3, sampleNodeI2c 0] := by
  obtain ⟨s', nodes, h1, h2, h3, -⟩ :=
    C9_rebuild_from_empty sampleEnv 0 emptyState rfl rfl rfl (fun _ => rfl)
  refine ⟨s', h1, ?_⟩
  have hs : collectd_sensors_init sampleEnv 0 emptyState
      = .ok ⟨1, store (store (store (store (store emptyCell 1 (some (sampleNode 0))) 2
          (some (sampleNodeFan 0))) 1 (some (sampleNode 2))) 3 (some (sampleNodeI2c 0))) 2
          (some (sampleNodeFan 3)), 3⟩ := rfl
  rw [hs] at h1
  simp only [Res.ok.injEq] at h1
  subst h1
  decide

/-- C9 as stated fails: with the provider available and the catalog empty, a rebuild during
which `malloc` fails leaves the catalog empty although three enumerated features are
master features, classified and not ignored. -/
theorem C9_counterexample :
    sampleEnvNoMem.conf_opens = true ∧ sampleEnvNoMem.sensors_init = 0
      ∧ emptyState.first_feature = 0
      ∧ (∃ s', collectd_sensors_init sampleEnvNoMem 0 emptyState = .ok s'
          ∧ isList s'.cell s'.first_feature [])
      ∧ (enumerated sampleEnvNoMem).filterMap (catalogued sampleEnvNoMem)
          = [(sampleNode 0).entry, (sampleNodeFan 0).entry, (sampleNodeI2c 0).entry] :=
  ⟨rfl, rfl, rfl, ⟨_, rfl, rfl⟩, by decide⟩

/-! ## Over-long identifiers -/

/-- C10: identifiers are never truncated: over a well-formed catalog a scan cycle runs to
its end; every identifier it submits is the complete composed identifier of an entry and
has at most 511 characters; and an entry whose composed identifier has 512 (`BUFSIZE`) or
more characters gets no reading, while the entries before and after it are handled as
usual. -/
theorem C10_no_truncation {V : Type} (env : Env V) (cfg : Config) (fuel : Nat) (s : State)
    (nodes : List featurelist_t) (hlist : isList s.cell s.first_feature nodes)
    (hfuel : nodes.length < fuel)
    (htype : cfg.sensor_extended_naming ≠ 0 → ∀ f ∈ nodes, typeInTable f.type)
    (hrec : recordsFit env) :
    ∃ out, sensors_read env cfg fuel s = .ok out
      ∧ (∀ sub ∈ out, sub.inst.length ≤ 511
          ∧ ∃ f ∈ nodes, sensors_read_feature env cfg f = .ok (some sub)
              ∧ sub.inst = identifier env cfg f)
      ∧ ∀ (pre post : List featurelist_t) (f : featurelist_t), nodes = pre ++ f :: post →
          BUFSIZE ≤ (identifier env cfg f).length →
          sensors_read_feature env cfg f = .ok none
            ∧ out = pre.filterMap (reading env cfg) ++ post.filterMap (reading env cfg) := by
  have hmain : sensors_read env cfg fuel s = .ok (nodes.filterMap (reading env cfg)) :=
    sensors_read_loop_eq env cfg hrec s.cell nodes fuel s.first_feature hlist hfuel htype
  refine ⟨_, hmain, ?_, ?_⟩
  · intro sub hsub
    obtain ⟨f, hf, hr⟩ := List.mem_filterMap.1 hsub
    have hfeat := sensors_read_feature_eq env cfg f hrec (fun h => htype h f hf)
    obtain ⟨⟨-, hlen, -⟩, hsubeq⟩ := (reading_eq_some_iff env cfg f sub).1 hr
    subst hsubeq
    refine ⟨?_, f, hf, by rw [hfeat, hr], rfl⟩
    have : BUFSIZE = 512 := rfl
    simp only at hlen ⊢
    omega
  · intro pre post f hsplit hlong
    have hf : f ∈ nodes := by rw [hsplit]; simp
    have hnone := reading_none_of_too_long env cfg f hlong
    refine ⟨?_, ?_⟩
    · rw [sensors_read_feature_eq env cfg f hrec (fun h => htype h f hf), hnone]
    · rw [hsplit, List.filterMap_append, List.filterMap_cons, hnone]

theorem longState_isList :
    isList longState.cell longState.first_feature
      [sampleNode 2, longNode 3, sampleNodeI2c 0] :=
  ⟨by decide, rfl, by decide, rfl, by decide, rfl, rfl⟩

theorem C10_no_truncation_witness :
    ∃ out, sensors_read sampleEnv extendedConfig 4 longState = .ok out
      ∧ (∀ sub ∈ out, sub.inst.length ≤ 511
          ∧ ∃ f ∈ [sampleNode 2, longNode 3, sampleNodeI2c 0],
              sensors_read_feature sampleEnv extendedConfig f = .ok (some sub)
              ∧ sub.inst = identifier sampleEnv extendedConfig f)
      ∧ ∀ (pre post : List featurelist_t) (f : featurelist_t),
          [sampleNode 2, longNode 3, sampleNodeI2c 0] = pre ++ f :: post →
          BUFSIZE ≤ (identifier sampleEnv extendedConfig f).length →
          sensors_read_feature sampleEnv extendedConfig f = .ok none
            ∧ out = pre.filterMap (reading sampleEnv extendedConfig)
                ++ post.filterMap (reading sampleEnv extendedConfig) :=
  C10_no_truncation sampleEnv extendedConfig 4 longState
    [sampleNode 2, longNode 3, sampleNodeI2c 0] longState_isList (by decide)
    (fun _ => by decide) sampleEnv_recordsFit

/-! ## Reading an identifier back -/

/-- Two strings cut at the first occurrence of `a` agree part by part. -/
theorem split_first {a : Char} {l1 l2 r1 r2 : CStr} (h1 : a ∉ l1) (h2 : a ∉ l2)
    (h : l1 ++ a :: r1 = l2 ++ a :: r2) : l1 = l2 ∧ r1 = r2 := by
  induction l1 generalizing l2 with
  | nil =>
    cases l2 with
    | nil => simpa using h
    | cons y l2 =>
      simp only [List.nil_append, List.cons_append, List.cons.injEq] at h
      exact absurd (by rw [h.1]; simp) h2
  | cons x l1 ih =>
    cases l2 with
    | nil =>
      simp only [List.nil_append, List.cons_append, List.cons.injEq] at h
      exact absurd (by rw [← h.1]; simp) h1
    | cons y l2 =>
      simp only [List.cons_append, List.cons.injEq] at h
      have h1' : a ∉ l1 := fun hm => h1 (List.mem_cons_of_mem _ hm)
      have h2' : a ∉ l2 := fun hm => h2 (List.mem_cons_of_mem _ hm)
      obtain ⟨e1, e2⟩ := ih h1' h2' h.2
      exact ⟨by rw [h.1, e1], e2⟩

/-- Two strings cut at the last occurrence of `a` agree part by part. -/
theorem split_last {a : Char} {l1 l2 r1 r2 : CStr} (h1 : a ∉ r1) (h2 : a ∉ r2)
    (h : l1 ++ a :: r1 = l2 ++ a :: r2) : l1 = l2 ∧ r1 = r2 := by
  have hrev := congrArg List.reverse h
  simp only [List.reverse_append, List.reverse_cons, List.append_assoc, List.singleton_append]
    at hrev
  obtain ⟨e1, e2⟩ := split_first (by simpa using h1) (by simpa using h2) hrev
  exact ⟨List.reverse_injective e2, List.reverse_injective e1⟩

theorem fmt_0x_inj (w : Nat) (v v' : Int) (h : fmt_0x w v = fmt_0x w v') :
    v % 2 ^ 32 = v' % 2 ^ 32 := by
  have h1 := (fmt_0x_spec w v).1
  have h2 := (fmt_0x_spec w v').1
  rw [h, h2] at h1
  omega

theorem not_mem_fmt_0x (w : Nat) (v : Int) (c : Char)
    (hc : c ∉ "0123456789abcdef".toList) : c ∉ fmt_0x w v :=
  fun hm => hc ((fmt_0x_spec w v).2.2.1 c hm)

theorem not_mem_numeral10 (n : Nat) (c : Char) (hc : c ∉ "0123456789abcdef".toList) :
    c ∉ numeral 10 n :=
  fun hm => hc (numeral_mem_hex 10 n (by omega) (by omega) c hm)

theorem numeral_ne_nil (b n : Nat) (hb : 2 ≤ b) : numeral b n ≠ [] := by
  by_cases hn : n < b
  · rw [numeral_lt b n hn]; simp
  · rw [numeral_ge b n hb (by omega)]; simp

theorem fmt_d_inj (v v' : Int) (h : fmt_d v = fmt_d v') : v = v' := by
  have hminus : ∀ n, '-' ∉ numeral 10 n := fun n => not_mem_numeral10 n '-' (by decide)
  have hval : ∀ n, numeralValue 10 (numeral 10 n) = n :=
    fun n => numeralValue_numeral 10 n (by omega) (by omega)
  unfold fmt_d at h
  by_cases hv : v < 0
  · by_cases hv' : v' < 0
    · simp only [hv, hv', if_true, List.cons.injEq, true_and] at h
      have := congrArg (numeralValue 10) h
      rw [hval, hval] at this
      omega
    · simp only [hv, hv', if_true, if_false] at h
      exact absurd (by rw [← h]; simp) (hminus v'.toNat)
  · by_cases hv' : v' < 0
    · simp only [hv, hv', if_true, if_false] at h
      exact absurd (by rw [h]; simp) (hminus v.toNat)
    · simp only [hv, hv', if_false] at h
      have := congrArg (numeralValue 10) h
      rw [hval, hval] at this
      omega

theorem not_mem_fmt_d (v : Int) : '/' ∉ fmt_d v := by
  unfold fmt_d
  split
  · intro hm
    rcases List.mem_cons.1 hm with h | h
    · exact absurd h (by decide)
    · exact not_mem_numeral10 _ '/' (by decide) h
  · exact not_mem_numeral10 _ '/' (by decide)

theorem dash_not_mem_category_suffix (type : Int) : '-' ∉ category_suffix type := by
  unfold category_suffix
  split
  · decide
  · split
    · decide
    · split <;> decide

theorem category_suffix_inj (t t' : Int) (h : typeInTable t) (h' : typeInTable t')
    (heq : category_suffix t = category_suffix t') : t = t' := by
  obtain ⟨h0, h3⟩ := h
  obtain ⟨h0', h3'⟩ := h'
  obtain ⟨n, rfl⟩ := Int.eq_ofNat_of_zero_le h0
  obtain ⟨m, rfl⟩ := Int.eq_ofNat_of_zero_le h0'
  have hn : n ≤ 3 := by omega
  have hm : m ≤ 3 := by omega
  interval_cases n <;> interval_cases m <;> first | rfl | (exact absurd heq (by decide))

/-- The part of an extended identifier behind the bus descriptor determines category and
raw label. -/
theorem tail_inj (t t' : Int) (l l' : CStr) (h : typeInTable t) (h' : typeInTable t')
    (heq : category_suffix t ++ '-' :: l = category_suffix t' ++ '-' :: l') :
    t = t' ∧ l = l' := by
  obtain ⟨e1, e2⟩ := split_first (dash_not_mem_category_suffix t)
    (dash_not_mem_category_suffix t') heq
  exact ⟨category_suffix_inj t t' h h' e1, e2⟩

theorem extended_identifier_inj_isa {V : Type} (env : Env V) (c c' : sensors_chip_name)
    (t t' : Int) (l l' : CStr) (hp : c.prefix_ = c'.prefix_)
    (hb : c.bus = env.SENSORS_CHIP_NAME_BUS_ISA) (hb' : c'.bus = env.SENSORS_CHIP_NAME_BUS_ISA)
    (ht : typeInTable t) (ht' : typeInTable t')
    (h : extended_identifier env c t l = extended_identifier env c' t' l') :
    c.addr % 2 ^ 32 = c'.addr % 2 ^ 32 ∧ t = t' ∧ l = l' := by
  simp only [extended_identifier, bus_descriptor, if_pos hb, if_pos hb', hp,
    List.append_assoc] at h
  have h1 := List.append_cancel_left (List.append_cancel_left (List.append_cancel_left h))
  have h2 : fmt_0x 4 c.addr ++ '/' :: (category_suffix t ++ '-' :: l)
      = fmt_0x 4 c'.addr ++ '/' :: (category_suffix t' ++ '-' :: l') := h1
  obtain ⟨e1, e2⟩ := split_first (not_mem_fmt_0x 4 _ '/' (by decide))
    (not_mem_fmt_0x 4 _ '/' (by decide)) h2
  exact ⟨fmt_0x_inj 4 _ _ e1, tail_inj t t' l l' ht ht' e2⟩

theorem extended_identifier_inj_named {V : Type} (env : Env V) (c c' : sensors_chip_name)
    (t t' : Int) (l l' : CStr) (hp : c.prefix_ = c'.prefix_)
    (hb : c.bus ≠ env.SENSORS_CHIP_NAME_BUS_ISA) (hb' : c'.bus ≠ env.SENSORS_CHIP_NAME_BUS_ISA)
    (hd : c.bus = env.SENSORS_CHIP_NAME_BUS_DUMMY)
    (hd' : c'.bus = env.SENSORS_CHIP_NAME_BUS_DUMMY) (hn : c.busname = c'.busname)
    (ht : typeInTable t) (ht' : typeInTable t')
    (h : extended_identifier env c t l = extended_identifier env c' t' l') :
    c.addr % 2 ^ 32 = c'.addr % 2 ^ 32 ∧ t = t' ∧ l = l' := by
  simp only [extended_identifier, bus_descriptor, if_neg hb, if_neg hb', if_pos hd, if_pos hd',
    hp, hn, List.append_assoc] at h
  have h1 := List.append_cancel_left (List.append_cancel_left
    (List.append_cancel_left (List.append_cancel_left h)))
  have h2 : fmt_0x 4 c.addr ++ '/' :: (category_suffix t ++ '-' :: l)
      = fmt_0x 4 c'.addr ++ '/' :: (category_suffix t' ++ '-' :: l') := h1
  obtain ⟨e1, e2⟩ := split_first (not_mem_fmt_0x 4 _ '/' (by decide))
    (not_mem_fmt_0x 4 _ '/' (by decide)) h2
  exact ⟨fmt_0x_inj 4 _ _ e1, tail_inj t t' l l' ht ht' e2⟩

theorem extended_identifier_inj_numbered {V : Type} (env : Env V) (c c' : sensors_chip_name)
    (t t' : Int) (l l' : CStr) (hp : c.prefix_ = c'.prefix_)
    (hb : c.bus ≠ env.SENSORS_CHIP_NAME_BUS_ISA) (hb' : c'.bus ≠ env.SENSORS_CHIP_NAME_BUS_ISA)
    (hd : c.bus ≠ env.SENSORS_CHIP_NAME_BUS_DUMMY)
    (hd' : c'.bus ≠ env.SENSORS_CHIP_NAME_BUS_DUMMY)
    (ht : typeInTable t) (ht' : typeInTable t')
    (h : extended_identifier env c t l = extended_identifier env c' t' l') :
    c.bus = c'.bus ∧ c.addr % 2 ^ 32 = c'.addr % 2 ^ 32 ∧ t = t' ∧ l = l' := by
  simp only [extended_identifier, bus_descriptor, if_neg hb, if_neg hb', if_neg hd, if_neg hd',
    hp, List.append_assoc] at h
  have h1 := List.append_cancel_left (List.append_cancel_left (List.append_cancel_left h))
  have h2 : (fmt_d c.bus ++ '-' :: fmt_0x 2 c.addr) ++ '/' :: (category_suffix t ++ '-' :: l)
      = (fmt_d c'.bus ++ '-' :: fmt_0x 2 c'.addr)
          ++ '/' :: (category_suffix t' ++ '-' :: l') := by
    simpa [List.append_assoc] using h1
  have hno : ∀ v a, '/' ∉ fmt_d v ++ '-' :: fmt_0x 2 a := by
    intro v a hm
    rcases List.mem_append.1 hm with hm | hm
    · exact not_mem_fmt_d v hm
    · rcases List.mem_cons.1 hm with hm | hm
      · exact absurd hm (by decide)
      · exact not_mem_fmt_0x 2 a '/' (by decide) hm
  obtain ⟨e1, e2⟩ := split_first (hno _ _) (hno _ _) h2
  obtain ⟨e3, e4⟩ := split_last (not_mem_fmt_0x 2 _ '-' (by decide))
    (not_mem_fmt_0x 2 _ '-' (by decide)) e1
  exact ⟨fmt_d_inj _ _ e3, fmt_0x_inj 2 _ _ e4, tail_inj t t' l l' ht ht' e2⟩

/-- C11 (amended): identifier construction is injective only within limits.  Under legacy
naming the identifier is `<chip-prefix>-<rawLabel>` and nothing else: two entries with the
same chip prefix have the same identifier iff they have the same raw label, whatever their
bus and address.  Under extended naming two entries whose chips have the same prefix and
are both on the ISA bus, or both on a named bus of the same name, or both on numbered
buses, and which have the same identifier, agree in address (as `unsigned int`), bus number
(numbered buses), category and raw label. -/
theorem C11_identifier_injectivity {V : Type} (env : Env V) (cfg : Config)
    (f g : featurelist_t) (hp : f.chip.prefix_ = g.chip.prefix_) :
    (cfg.sensor_extended_naming = 0 →
        (identifier env cfg f = identifier env cfg g ↔ f.data.name = g.data.name))
      ∧ (cfg.sensor_extended_naming ≠ 0 → typeInTable f.type → typeInTable g.type →
          identifier env cfg f = identifier env cfg g →
          ((f.chip.bus = env.SENSORS_CHIP_NAME_BUS_ISA
              ∧ g.chip.bus = env.SENSORS_CHIP_NAME_BUS_ISA)
            ∨ (f.chip.bus ≠ env.SENSORS_CHIP_NAME_BUS_ISA
              ∧ g.chip.bus ≠ env.SENSORS_CHIP_NAME_BUS_ISA
              ∧ f.chip.bus = env.SENSORS_CHIP_NAME_BUS_DUMMY
              ∧ g.chip.bus = env.SENSORS_CHIP_NAME_BUS_DUMMY
              ∧ f.chip.busname = g.chip.busname)
            ∨ (f.chip.bus ≠ env.SENSORS_CHIP_NAME_BUS_ISA
              ∧ g.chip.bus ≠ env.SENSORS_CHIP_NAME_BUS_ISA
              ∧ f.chip.bus ≠ env.SENSORS_CHIP_NAME_BUS_DUMMY
              ∧ g.chip.bus ≠ env.SENSORS_CHIP_NAME_BUS_DUMMY)) →
          f.chip.bus = g.chip.bus ∧ f.chip.addr % 2 ^ 32 = g.chip.addr % 2 ^ 32
            ∧ f.type = g.type ∧ f.data.name = g.data.name) := by
  constructor
  · intro hleg
    simp only [identifier, hleg, ne_eq, not_true_eq_false, if_false, legacy_identifier, hp]
    constructor
    · intro h
      exact List.append_cancel_left h
    · intro h
      rw [h]
  · intro hext htf htg heq hfam
    simp only [identifier, hext, ne_eq, not_false_eq_true, if_true] at heq
    rcases hfam with ⟨h1, h2⟩ | ⟨h1, h2, h3, h4, h5⟩ | ⟨h1, h2, h3, h4⟩
    · obtain ⟨e1, e2, e3⟩ := extended_identifier_inj_isa env _ _ _ _ _ _ hp h1 h2 htf htg heq
      exact ⟨by rw [h1, h2], e1, e2, e3⟩
    · obtain ⟨e1, e2, e3⟩ :=
        extended_identifier_inj_named env _ _ _ _ _ _ hp h1 h2 h3 h4 h5 htf htg heq
      exact ⟨by rw [h3, h4], e1, e2, e3⟩
    · exact extended_identifier_inj_numbered env _ _ _ _ _ _ hp h1 h2 h3 h4 htf htg heq

theorem C11_identifier_injectivity_witness :
    (identifier sampleEnv legacyConfig (sampleNodeI2c 0)
        = identifier sampleEnv legacyConfig sampleNodeI2cB
      ↔ (sampleNodeI2c 0).data.name = sampleNodeI2cB.data.name)
      ∧ (sampleNodeI2c 0).chip.bus = (sampleNodeI2c 3).chip.bus
      ∧ (sampleNodeI2c 0).chip.addr % 2 ^ 32 = (sampleNodeI2c 3).chip.addr % 2 ^ 32
      ∧ (sampleNodeI2c 0).type = (sampleNodeI2c 3).type
      ∧ (sampleNodeI2c 0).data.name = (sampleNodeI2c 3).data.name :=
  ⟨(C11_identifier_injectivity sampleEnv legacyConfig (sampleNodeI2c 0) sampleNodeI2cB
      (by decide)).1 (by decide),
    (C11_identifier_injectivity sampleEnv extendedConfig (sampleNodeI2c 0) (sampleNodeI2c 3)
      (by decide)).2 (by decide) (by decide) (by decide) (by decide)
      (Or.inr (Or.inr ⟨by decide, by decide, by decide, by decide⟩))⟩

/-- C11 as stated fails under both schemes: the chips `lm75` at the addresses `0x48` and
`0x49` of bus `0` are both submitted as `lm75-temp` under legacy naming, and the chip `p`
at address `0x2d` of the ISA bus and the chip `p` at address `0x2d` of a named bus called
`isa` are both submitted as `p-isa-002d/temperature-temp1` under extended naming. -/
theorem C11_counterexample :
    (sampleNodeI2c 0).chip ≠ sampleNodeI2cB.chip
      ∧ sensors_read_feature sampleEnv legacyConfig (sampleNodeI2c 0)
          = .ok (some ⟨"lm75-temp".toList, "1000:42.000".toList⟩)
      ∧ sensors_read_feature sampleEnv legacyConfig sampleNodeI2cB
          = .ok (some ⟨"lm75-temp".toList, "1000:42.000".toList⟩)
      ∧ (sampleNode 0).chip ≠ sampleNodeNamedIsa.chip
      ∧ sensors_read_feature sampleEnv extendedConfig (sampleNode 0)
          = .ok (some ⟨"p-isa-002d/temperature-temp1".toList, "1000:42.000".toList⟩)
      ∧ sensors_read_feature sampleEnv extendedConfig sampleNodeNamedIsa
          = .ok (some ⟨"p-isa-002d/temperature-temp1".toList, "1000:42.000".toList⟩) := by
  decide

/-- C12 (amended): in the scan cycle the selection filter is evaluated on the identifier that
is submitted: a catalog entry whose read succeeds and whose identifier fits the buffer is
submitted iff the filter accepts its identifier, which is `<chip-prefix>-<rawLabel>` under
legacy naming and the whole extended identifier
`<chip-prefix>-<bus-descriptor>/<category-suffix>-<rawLabel>` under extended naming. -/
theorem C12_filter_string {V : Type} (env : Env V) (cfg : Config) (f : featurelist_t)
    (hrec : recordsFit env) (htype : cfg.sensor_extended_naming ≠ 0 → typeInTable f.type)
    (hread : 0 ≤ (env.sensors_get_feature f.chip f.data.number).1)
    (hfit : (identifier env cfg f).length < BUFSIZE) :
    ((∃ sub, sensors_read_feature env cfg f = .ok (some sub))
        ↔ isAccepted cfg (identifier env cfg f) = true)
      ∧ (isAccepted cfg (identifier env cfg f) = true →
          sensors_read_feature env cfg f
            = .ok (some ⟨identifier env cfg f, record env f⟩))
      ∧ (isAccepted cfg (identifier env cfg f) = false →
          sensors_read_feature env cfg f = .ok none)
      ∧ (cfg.sensor_extended_naming = 0 →
          identifier env cfg f = f.chip.prefix_ ++ "-".toList ++ f.data.name)
      ∧ (cfg.sensor_extended_naming ≠ 0 →
          identifier env cfg f
            = f.chip.prefix_ ++ "-".toList ++ bus_descriptor env f.chip ++ "/".toList
                ++ category_suffix f.type ++ "-".toList ++ f.data.name) := by
  have hmain := sensors_read_feature_eq env cfg f hrec htype
  have hyes : isAccepted cfg (identifier env cfg f) = true →
      sensors_read_feature env cfg f = .ok (some ⟨identifier env cfg f, record env f⟩) := by
    intro hacc
    rw [hmain, (reading_eq_some_iff env cfg f _).2 ⟨⟨hread, hfit, hacc⟩, rfl⟩]
  have hno : isAccepted cfg (identifier env cfg f) = false →
      sensors_read_feature env cfg f = .ok none := by
    intro hacc
    rw [hmain]
    unfold reading
    simp [hacc]
  refine ⟨?_, hyes, hno, ?_, ?_⟩
  · constructor
    · rintro ⟨sub, hsub⟩
      cases hacc : isAccepted cfg (identifier env cfg f) with
      | true => rfl
      | false =>
        rw [hno hacc] at hsub
        simp at hsub
    · intro hacc
      exact ⟨_, hyes hacc⟩
  · intro hleg
    simp [identifier, hleg, legacy_identifier]
  · intro hext
    simp [identifier, hext, extended_identifier]

theorem C12_filter_string_witness :
    sensors_read_feature sampleEnv extendedConfigFullList (sampleNode 0)
      = .ok (some ⟨"p-isa-002d/temperature-temp1".toList, "1000:42.000".toList⟩) :=
  ((C12_filter_string sampleEnv extendedConfigFullList (sampleNode 0) sampleEnv_recordsFit
    (fun _ => by decide) (by decide) (by decide)).2.1 (by decide)).trans (by decide)

/-- C12 as stated fails under extended naming: with the selection list `p-temp1` the
filter accepts the string `p-temp1`, yet the entry of chip `p`, feature `temp1` is skipped;
with the selection list `p-isa-002d/temperature-temp1` the filter rejects the string
`p-temp1`, yet the entry is submitted. -/
theorem C12_counterexample :
    isAccepted extendedConfigLegacyList
        ((sampleNode 0).chip.prefix_ ++ "-".toList ++ (sampleNode 0).data.name) = true
      ∧ sensors_read_feature sampleEnv extendedConfigLegacyList (sampleNode 0) = .ok none
      ∧ isAccepted extendedConfigFullList
          ((sampleNode 0).chip.prefix_ ++ "-".toList ++ (sampleNode 0).data.name) = false
      ∧ sensors_read_feature sampleEnv extendedConfigFullList (sampleNode 0)
          = .ok (some ⟨"p-isa-002d/temperature-temp1".toList, "1000:42.000".toList⟩) := by
  decide

/-! ## The writer -/

theorem strrchr_eq_none_iff (s : CStr) (c : Char) : strrchr s c = none ↔ c ∉ s := by
  induction s with
  | nil => simp [strrchr]
  | cons a rest ih =>
    unfold strrchr
    cases h : strrchr rest c with
    | some t =>
      have : ¬ c ∉ rest := fun hn => by rw [ih.2 hn] at h; exact absurd h (by simp)
      have hmem : c ∈ rest := not_not.1 this
      simp [hmem]
    | none =>
      have hn := ih.1 h
      by_cases hac : a = c
      · simp [hac]
      · have hca : ¬ c = a := fun e => hac e.symm
        simp [hac, hca, hn]

/-- `strrchr` finds the last occurrence: the tail behind which the character does not
occur again. -/
theorem strrchr_append (pre post : CStr) (c : Char) (h : c ∉ post) :
    strrchr (pre ++ c :: post) c = some (c :: post) := by
  induction pre with
  | nil =>
    simp only [List.nil_append]
    unfold strrchr
    rw [(strrchr_eq_none_iff post c).2 h]
    simp
  | cons a pre ih =>
    simp only [List.cons_append]
    unfold strrchr
    rw [ih]

/-- The result of `sensors_write` in closed form. -/
theorem sensors_write_eq (heartbeat : CStr) (cfg : Config) (host inst val : CStr) :
    sensors_write heartbeat cfg host inst val
      = if isAccepted cfg inst = true ∧ (write_filename cfg inst).length < BUFSIZE
            ∧ (cfg.sensor_extended_naming ≠ 0 → '/' ∈ inst) then
          some ⟨host, write_filename cfg inst, val,
            if cfg.sensor_extended_naming ≠ 0
                ∧ (strrchr inst '/').any
                    (fun typestart => decide ("/voltage".toList <+: typestart)) = true then
              sensor_voltage_ds_def heartbeat
            else ds_def heartbeat, 1⟩
        else none := by
  unfold sensors_write isAccepted
  simp only [decide_eq_true_eq]
  by_cases hign : config_get_ignored cfg inst = 0
  · have hfold : (if cfg.sensor_extended_naming ≠ 0 then
          "lm_sensors-".toList ++ inst ++ ".rrd".toList
        else "sensors-".toList ++ inst ++ ".rrd".toList) = write_filename cfg inst := rfl
    simp only [hign, ne_eq, not_true_eq_false, if_false, true_and, hfold]
    have hpos : ¬ (((write_filename cfg inst).length : Nat) : Int) < 1 := by
      have : 1 ≤ (write_filename cfg inst).length := by
        unfold write_filename
        split <;> simp
      omega
    simp only [hpos, if_false]
    by_cases hlen : (write_filename cfg inst).length < BUFSIZE
    · have hge : ¬ (write_filename cfg inst).length ≥ BUFSIZE := by omega
      simp only [hge, if_false, hlen, true_and]
      by_cases hext : cfg.sensor_extended_naming = 0
      · simp [hext]
      · simp only [hext, not_false_eq_true, if_true, true_and, forall_true_left]
        cases hs : strrchr inst '/' with
        | none =>
          have := (strrchr_eq_none_iff inst '/').1 hs
          simp [this]
        | some typestart =>
          have hmem : '/' ∈ inst := by
            by_contra hn
            rw [(strrchr_eq_none_iff inst '/').2 hn] at hs
            exact absurd hs (by simp)
          simp only [hmem, if_true, strncmp_eq_zero_iff, Option.any_some, decide_eq_true_eq]
          split <;> rfl
    · have hge : (write_filename cfg inst).length ≥ BUFSIZE := by omega
      simp [hge, hlen]
  · simp [hign]

/-- C14: `sensors_write` hands a record to the sink iff the selection filter accepts the
identifier, the file name built from the template of the naming scheme
(`sensors-<identifier>.rrd`, `lm_sensors-<identifier>.rrd`) has fewer than 512 characters
and, under extended naming, the identifier contains a `/`; the record then carries that
whole file name and the given host and value string, and otherwise nothing is handed
over. -/
theorem C14_sensors_write (heartbeat : CStr) (cfg : Config) (host inst val : CStr) :
    ((sensors_write heartbeat cfg host inst val).isSome = true ↔
        (isAccepted cfg inst = true ∧ (write_filename cfg inst).length < 512
          ∧ (cfg.sensor_extended_naming ≠ 0 → '/' ∈ inst)))
      ∧ (∀ r, sensors_write heartbeat cfg host inst val = some r →
          r.host = host ∧ r.file = write_filename cfg inst ∧ r.val = val
            ∧ (r.ds = ds_def heartbeat ∨ r.ds = sensor_voltage_ds_def heartbeat))
      ∧ (cfg.sensor_extended_naming = 0 →
          write_filename cfg inst = "sensors-".toList ++ inst ++ ".rrd".toList)
      ∧ (cfg.sensor_extended_naming ≠ 0 →
          write_filename cfg inst = "lm_sensors-".toList ++ inst ++ ".rrd".toList) := by
  have hB : BUFSIZE = 512 := rfl
  rw [sensors_write_eq, hB]
  refine ⟨?_, ?_, ?_, ?_⟩
  · split <;> simp_all
  · intro r hr
    split at hr
    · simp only [Option.some.injEq] at hr
      subst hr
      refine ⟨rfl, rfl, rfl, ?_⟩
      split
      · exact Or.inr rfl
      · exact Or.inl rfl
    · simp at hr
  · intro h
    simp [write_filename, h]
  · intro h
    simp [write_filename, h]

/-- The classifier only assigns the categories Voltage, FanSpeed and Temperature. -/
theorem classify_valid (name : CStr) (type : Int) (h : classify name = some type) :
    validCategory type := by
  rw [classify_eq_map_rule, classify_rule_eq_find] at h
  cases hf : known_rules.find? (fun e => e.label.isPrefixOf name) with
  | none => rw [hf] at h; simp at h
  | some e =>
    rw [hf] at h
    simp only [Option.map_some', Option.some.injEq] at h
    have hmem := List.mem_of_find?_eq_some hf
    have hall : ∀ e ∈ known_rules, validCategory e.type := by decide
    rw [← h]
    exact hall e hmem

theorem validCategory_typeInTable (type : Int) (h : validCategory type) : typeInTable type := by
  rcases h with h | h | h <;> rw [h] <;> decide

theorem ds_def_ne (heartbeat : CStr) : ds_def heartbeat ≠ sensor_voltage_ds_def heartbeat := by
  intro h
  have := congrArg (fun l => l.head?.bind fun s => s.get? 4) h
  simp [ds_def, sensor_voltage_ds_def] at this

theorem slash_not_mem_suffix (type : Int) : '/' ∉ category_suffix type ++ "-".toList := by
  unfold category_suffix
  split
  · decide
  · split
    · decide
    · split <;> decide

theorem voltage_prefix_iff (type : Int) (h : typeInTable type) (label : CStr) :
    "/voltage".toList <+: '/' :: (category_suffix type ++ "-".toList ++ label)
      ↔ type = SENSOR_TYPE_VOLTAGE := by
  obtain ⟨h0, h3⟩ := h
  obtain ⟨n, rfl⟩ := Int.eq_ofNat_of_zero_le h0
  have hn : n ≤ 3 := by omega
  interval_cases n
  · simp [category_suffix, SENSOR_TYPE_VOLTAGE, SENSOR_TYPE_FANSPEED, SENSOR_TYPE_TEMPERATURE,
      List.cons_prefix_cons]
  · simp [category_suffix, SENSOR_TYPE_VOLTAGE, List.cons_prefix_cons]
  · simp [category_suffix, SENSOR_TYPE_VOLTAGE, SENSOR_TYPE_FANSPEED, SENSOR_TYPE_TEMPERATURE,
      List.cons_prefix_cons]
  · simp [category_suffix, SENSOR_TYPE_VOLTAGE, SENSOR_TYPE_FANSPEED, SENSOR_TYPE_TEMPERATURE,
      List.cons_prefix_cons]

theorem strrchr_extended_identifier {V : Type} (env : Env V) (chip : sensors_chip_name)
    (type : Int) (label : CStr) (hlabel : '/' ∉ label) :
    strrchr (extended_identifier env chip type label) '/'
      = some ('/' :: (category_suffix type ++ "-".toList ++ label)) := by
  have hshape : extended_identifier env chip type label
      = (chip.prefix_ ++ "-".toList ++ bus_descriptor env chip)
          ++ '/' :: (category_suffix type ++ "-".toList ++ label) := by
    simp [extended_identifier]
  rw [hshape]
  apply strrchr_append
  intro hmem
  rcases List.mem_append.1 hmem with h | h
  · exact slash_not_mem_suffix type h
  · exact hlabel h

/-- C13 (amended): the schema chosen by the writer agrees with the category the identifier
was built from when the raw label contains no `/`: under extended naming, for the
identifier built for a feature that the classifier accepts, a record written by
`sensors_write` uses the voltage schema iff the category is Voltage and the generic schema
otherwise; under legacy naming every record uses the generic schema. -/
theorem C13_writer_schema {V : Type} (env : Env V) (heartbeat : CStr) (cfg : Config)
    (host val : CStr) (chip : sensors_chip_name) (type : Int) (label : CStr)
    (hcat : classify label = some type) (hlabel : '/' ∉ label) :
    (cfg.sensor_extended_naming ≠ 0 →
        ∀ r, sensors_write heartbeat cfg host (extended_identifier env chip type label) val
            = some r →
          (r.ds = sensor_voltage_ds_def heartbeat ↔ type = SENSOR_TYPE_VOLTAGE)
            ∧ (type ≠ SENSOR_TYPE_VOLTAGE → r.ds = ds_def heartbeat))
      ∧ (cfg.sensor_extended_naming = 0 →
        ∀ inst r, sensors_write heartbeat cfg host inst val = some r →
          r.ds = ds_def heartbeat) := by
  have htab := validCategory_typeInTable type (classify_valid label type hcat)
  constructor
  · intro hext r hr
    rw [sensors_write_eq, strrchr_extended_identifier env chip type label hlabel] at hr
    simp only [Option.any_some, decide_eq_true_eq, voltage_prefix_iff type htab, hext,
      ne_eq, not_false_eq_true, true_and] at hr
    split at hr
    · simp only [Option.some.injEq] at hr
      subst hr
      by_cases hv : type = SENSOR_TYPE_VOLTAGE
      · simp [hv]
      · simp only [hv, if_false, iff_false]
        exact ⟨ds_def_ne heartbeat, fun _ => trivial⟩
    · simp at hr
  · intro hleg inst r hr
    rw [sensors_write_eq] at hr
    simp only [hleg, ne_eq, not_true_eq_false, false_and, if_false] at hr
    split at hr
    · simp only [Option.some.injEq] at hr
      subst hr
      rfl
    · simp at hr

theorem C13_writer_schema_witness :
    ( sensor_voltage_ds_def "25".toList = sensor_voltage_ds_def "25".toList
        ↔ SENSOR_TYPE_VOLTAGE = SENSOR_TYPE_VOLTAGE)
      ∧ (SENSOR_TYPE_VOLTAGE ≠ SENSOR_TYPE_VOLTAGE →
          sensor_voltage_ds_def "25".toList = ds_def "25".toList) :=
  (C13_writer_schema sampleEnv "25".toList extendedConfig "host".toList
    "1000:42.000".toList sampleChip SENSOR_TYPE_VOLTAGE "in0".toList (by decide)
    (by decide)).1 (by decide)
    ⟨"host".toList, "lm_sensors-p-isa-002d/voltage-in0.rrd".toList,
      "1000:42.000".toList, sensor_voltage_ds_def "25".toList, 1⟩ (by decide)

/-- C13 as stated fails for a raw label with a `/`: the feature `temp1/voltage` is
classified Temperature, the scan cycle submits it as
`p-isa-002d/temperature-temp1/voltage`, and the writer, which looks at the last `/`,
uses the voltage schema for it. -/
theorem C13_counterexample :
    classify "temp1/voltage".toList = some SENSOR_TYPE_TEMPERATURE
      ∧ sensors_read_feature sampleEnv extendedConfig slashNode
          = .ok (some ⟨"p-isa-002d/temperature-temp1/voltage".toList, "1000:42.000".toList⟩)
      ∧ extended_identifier sampleEnv sampleChip SENSOR_TYPE_TEMPERATURE "temp1/voltage".toList
          = "p-isa-002d/temperature-temp1/voltage".toList
      ∧ sensors_write "25".toList extendedConfig "host".toList
          "p-isa-002d/temperature-temp1/voltage".toList "1000:42.000".toList
          = some ⟨"host".toList, "lm_sensors-p-isa-002d/temperature-temp1/voltage.rrd".toList,
              "1000:42.000".toList, sensor_voltage_ds_def "25".toList, 1⟩
      ∧ sensor_voltage_ds_def "25".toList ≠ ds_def "25".toList := by
  decide

/-! ## Configuration -/

theorem is_true_value_iff (value : CStr) : is_true_value value = true ↔ isTrueWord value := by
  unfold is_true_value isTrueWord
  simp only [Bool.or_eq_true, decide_eq_true_eq, strcasecmp_eq_zero_iff, or_assoc]

theorem strcasecmp_ne_zero_of_eq {key a b : CStr} (h : eqIgnoreCase key a)
    (hab : a.map tolower ≠ b.map tolower) : ¬ strcasecmp key b = 0 := by
  intro h0
  rw [strcasecmp_eq_zero_iff] at h0
  unfold eqIgnoreCase at h h0
  exact hab (h.symm.trans h0)

/-- C15: `sensors_config` rejects a key that is none of `Sensor`, `IgnoreSelected`,
`ExtendedSensorNaming` (ignoring case) with the status `-1` and without touching the
selection list or the two flags, whatever the value and the allocator do; for each of the
three recognised keys it returns `0` when the allocations succeed. -/
theorem C15_sensors_config_keys (cfg : Config) (key value : CStr) :
    ((¬ eqIgnoreCase key "Sensor".toList ∧ ¬ eqIgnoreCase key "IgnoreSelected".toList
        ∧ ¬ eqIgnoreCase key "ExtendedSensorNaming".toList) →
        ∀ realloc_ok strdup_ok : Bool,
          sensors_config realloc_ok strdup_ok cfg key value = (cfg, -1))
      ∧ ((eqIgnoreCase key "Sensor".toList ∨ eqIgnoreCase key "IgnoreSelected".toList
          ∨ eqIgnoreCase key "ExtendedSensorNaming".toList) →
          (sensors_config true true cfg key value).2 = 0) := by
  constructor
  · rintro ⟨h1, h2, h3⟩ realloc_ok strdup_ok
    rw [← strcasecmp_eq_zero_iff] at h1 h2 h3
    simp only [sensors_config, h1, h2, h3, if_false]
  · intro h
    unfold sensors_config
    by_cases k1 : strcasecmp key "Sensor".toList = 0
    · simp only [k1, if_true, Bool.true_eq_false, if_false]
    · by_cases k2 : strcasecmp key "IgnoreSelected".toList = 0
      · simp only [k1, k2, if_true, if_false]
        split <;> rfl
      · by_cases k3 : strcasecmp key "ExtendedSensorNaming".toList = 0
        · simp only [k1, k2, k3, if_true, if_false]
          split <;> rfl
        · exfalso
          rw [strcasecmp_eq_zero_iff] at k1 k2 k3
          rcases h with h | h | h
          · exact k1 h
          · exact k2 h
          · exact k3 h

/-- C16: the key `IgnoreSelected` sets the invert flag to `1` iff the value is `True`, `Yes`
or `On` ignoring case and to `0` for every other value, whatever it was before, and leaves
the selection list and the naming flag as they were; the key `ExtendedSensorNaming` does
the same to the naming flag and leaves the selection list and the invert flag as they
were.  Both return `0`. -/
theorem C16_boolean_options (cfg : Config) (key value : CStr) (realloc_ok strdup_ok : Bool) :
    (eqIgnoreCase key "IgnoreSelected".toList →
        sensors_config realloc_ok strdup_ok cfg key value
          = (⟨cfg.sensor_list, if isTrueWord value then 1 else 0, cfg.sensor_extended_naming⟩, 0))
      ∧ (eqIgnoreCase key "ExtendedSensorNaming".toList →
        sensors_config realloc_ok strdup_ok cfg key value
          = (⟨cfg.sensor_list, cfg.sensor_list_action, if isTrueWord value then 1 else 0⟩, 0)) := by
  constructor
  · intro h
    have k1 := strcasecmp_ne_zero_of_eq (b := "Sensor".toList) h (by decide)
    have k2 : strcasecmp key "IgnoreSelected".toList = 0 := (strcasecmp_eq_zero_iff _ _).2 h
    unfold sensors_config
    simp only [k1, k2, if_true, if_false, is_true_value_iff]
    split <;> rfl
  · intro h
    have k1 := strcasecmp_ne_zero_of_eq (b := "Sensor".toList) h (by decide)
    have k2 := strcasecmp_ne_zero_of_eq (b := "IgnoreSelected".toList) h (by decide)
    have k3 : strcasecmp key "ExtendedSensorNaming".toList = 0 :=
      (strcasecmp_eq_zero_iff _ _).2 h
    unfold sensors_config
    simp only [k1, k2, k3, if_true, if_false, is_true_value_iff]
    split <;> rfl

theorem sensors_config_sensor (cfg : Config) (key v : CStr)
    (h : eqIgnoreCase key "Sensor".toList) :
    sensors_config true true cfg key v
      = (⟨cfg.sensor_list ++ [v], cfg.sensor_list_action, cfg.sensor_extended_naming⟩, 0) := by
  have k1 : strcasecmp key "Sensor".toList = 0 := (strcasecmp_eq_zero_iff _ _).2 h
  simp only [sensors_config, k1, if_true, Bool.true_eq_false, if_false]

theorem configure_sensors_eq (cfg : Config) (vs : List CStr) :
    configure_sensors cfg vs
      = ⟨cfg.sensor_list ++ vs, cfg.sensor_list_action, cfg.sensor_extended_naming⟩ := by
  unfold configure_sensors
  induction vs generalizing cfg with
  | nil => simp
  | cons v vs ih =>
    rw [List.foldl_cons, sensors_config_sensor cfg _ v (by decide), ih]
    simp

/-- C17 (amended): the key `Sensor` appends its value to the selection list: the list after
the call is the previous list followed by the value, one entry longer, with the earlier
entries in their order and both flags unchanged; after a sequence of `Sensor` options given
to the initial configuration the list holds their values in configuration order, and when
the sequence is not empty the filter accepts exactly the identifiers equal to one of them
ignoring case. -/
theorem C17_sensor_appends (cfg : Config) (key v : CStr) (vs : List CStr)
    (hkey : eqIgnoreCase key "Sensor".toList) :
    sensors_config true true cfg key v
        = (⟨cfg.sensor_list ++ [v], cfg.sensor_list_action, cfg.sensor_extended_naming⟩, 0)
      ∧ (sensors_config true true cfg key v).1.sensor_list.length = cfg.sensor_list.length + 1
      ∧ (sensors_config true true cfg key v).1.sensor_list.take cfg.sensor_list.length
          = cfg.sensor_list
      ∧ (configure_sensors cfg vs).sensor_list = cfg.sensor_list ++ vs
      ∧ (configure_sensors cfg vs).sensor_list_action = cfg.sensor_list_action
      ∧ (configure_sensors cfg vs).sensor_extended_naming = cfg.sensor_extended_naming
      ∧ (configure_sensors initialConfig vs).sensor_list = vs
      ∧ (vs ≠ [] → ∀ x : CStr,
          (isAccepted (configure_sensors initialConfig vs) x = true
            ↔ ∃ e ∈ vs, eqIgnoreCase x e)) := by
  have h1 := sensors_config_sensor cfg key v hkey
  refine ⟨h1, ?_, ?_, ?_, ?_, ?_, ?_, ?_⟩
  · rw [h1]; simp
  · rw [h1]; simp
  · rw [configure_sensors_eq]
  · rw [configure_sensors_eq]
  · rw [configure_sensors_eq]
  · rw [configure_sensors_eq]; simp [initialConfig]
  · intro hne x
    unfold isAccepted
    rw [config_get_ignored_eq, configure_sensors_eq]
    simp only [initialConfig, List.nil_append, hne, if_false, decide_eq_true_eq]
    by_cases hex : ∃ e ∈ vs, eqIgnoreCase x e
    · simp [hex]
    · simp [hex]

theorem C17_sensor_appends_witness :
    (configure_sensors initialConfig ["p-temp1".toList, "p-in0".toList]).sensor_list
        = ["p-temp1".toList, "p-in0".toList]
      ∧ isAccepted (configure_sensors initialConfig ["p-temp1".toList, "p-in0".toList])
          "P-IN0".toList = true :=
  ⟨(C17_sensor_appends initialConfig "sensor".toList "x".toList
      ["p-temp1".toList, "p-in0".toList] (by decide)).2.2.2.2.2.2.1,
    ((C17_sensor_appends initialConfig "sensor".toList "x".toList
      ["p-temp1".toList, "p-in0".toList] (by decide)).2.2.2.2.2.2.2 (by decide)
      "P-IN0".toList).2 ⟨"p-in0".toList, by decide, by decide⟩⟩

/-- C17 as stated fails for the empty sequence: with no `Sensor` option the list is empty
and the filter accepts an identifier although it equals none of the (no) values. -/
theorem C17_counterexample :
    (configure_sensors initialConfig []).sensor_list = []
      ∧ isAccepted (configure_sensors initialConfig []) "p-temp1".toList = true
      ∧ ¬ ∃ e ∈ ([] : List CStr), eqIgnoreCase "p-temp1".toList e := by
  refine ⟨rfl, by decide, ?_⟩
  simp

/-! ## Rebuilds with failing allocations, and rebuilds over an old catalog -/

theorem add_feature_of_malloc_ok {V : Type} (env : Env V) (chip : sensors_chip_name)
    (data : sensors_feature_data) (b : Build) (h : env.malloc_ok b.brk = true) :
    add_feature env chip data b = add_feature (withMemory env) chip data b := by
  unfold add_feature withMemory
  simp only [h]

theorem add_feature_of_malloc_fails {V : Type} (env : Env V) (chip : sensors_chip_name)
    (data : sensors_feature_data) (b : Build) (h : env.malloc_ok b.brk = false) :
    add_feature env chip data b = .ok b := by
  unfold add_feature
  simp only [h, if_true]
  split
  · rfl
  · split
    · rfl
    · split <;> rfl

/-- One step of the enumeration, whatever `malloc` does: the catalog grows by at most the
entry of the feature. -/
theorem add_feature_spec_gen {V : Type} (env : Env V) (chip : sensors_chip_name)
    (data : sensors_feature_data) (b : Build) (brk0 : Nat) (acc : List FeatureEntry)
    (h : BuildInv brk0 b acc) :
    ∃ b' extra, add_feature env chip data b = .ok b' ∧ BuildInv brk0 b' (acc ++ extra)
      ∧ ∀ e ∈ extra, ∃ cd, catalogued env cd = some e := by
  cases hm : env.malloc_ok b.brk with
  | true =>
    obtain ⟨b', h1, h2⟩ :=
      add_feature_spec (withMemory env) (fun _ => rfl) chip data b brk0 acc h
    refine ⟨b', (catalogued env (chip, data)).toList, ?_, h2, ?_⟩
    · rw [add_feature_of_malloc_ok env chip data b hm, h1]
    · intro e he
      exact ⟨(chip, data), by simpa using he⟩
  | false =>
    refine ⟨b, [], add_feature_of_malloc_fails env chip data b hm, by simpa using h, ?_⟩
    intro e he
    simp at he

theorem features_loop_spec_gen {V : Type} (env : Env V) (chip : sensors_chip_name)
    (features : List sensors_feature_data) (b : Build) (brk0 : Nat)
    (acc : List FeatureEntry) (h : BuildInv brk0 b acc) :
    ∃ b' extra, features_loop env chip features b = .ok b' ∧ BuildInv brk0 b' (acc ++ extra)
      ∧ ∀ e ∈ extra, ∃ cd, catalogued env cd = some e := by
  induction features generalizing b acc with
  | nil => exact ⟨b, [], rfl, by simpa using h, by simp⟩
  | cons data rest ih =>
    obtain ⟨b1, x1, h1, hinv1, hx1⟩ := add_feature_spec_gen env chip data b brk0 acc h
    obtain ⟨b2, x2, h2, hinv2, hx2⟩ := ih b1 _ hinv1
    refine ⟨b2, x1 ++ x2, ?_, by simpa [List.append_assoc] using hinv2, ?_⟩
    · simp only [features_loop, h1, Res.bind, h2]
    · intro e he
      rcases List.mem_append.1 he with he | he
      · exact hx1 e he
      · exact hx2 e he

theorem chips_loop_spec_gen {V : Type} (env : Env V)
    (chips : List (sensors_chip_name × List sensors_feature_data)) (b : Build) (brk0 : Nat)
    (acc : List FeatureEntry) (h : BuildInv brk0 b acc) :
    ∃ b' extra, chips_loop env chips b = .ok b' ∧ BuildInv brk0 b' (acc ++ extra)
      ∧ ∀ e ∈ extra, ∃ cd, catalogued env cd = some e := by
  induction chips generalizing b acc with
  | nil => exact ⟨b, [], rfl, by simpa using h, by simp⟩
  | cons cf rest ih =>
    obtain ⟨chip, features⟩ := cf
    obtain ⟨b1, x1, h1, hinv1, hx1⟩ := features_loop_spec_gen env chip features b brk0 acc h
    obtain ⟨b2, x2, h2, hinv2, hx2⟩ := ih b1 _ hinv1
    refine ⟨b2, x1 ++ x2, ?_, by simpa [List.append_assoc] using hinv2, ?_⟩
    · simp only [chips_loop, h1, Res.bind, h2]
    · intro e he
      rcases List.mem_append.1 he with he | he
      · exact hx1 e he
      · exact hx2 e he

/-- A rebuild from the empty catalog always returns, whatever the provider and `malloc`
do, and leaves a well-formed list whose entries are entries of enumerated features. -/
theorem init_from_empty_gen {V : Type} (env : Env V) (fuel : Nat) (s : State)
    (hempty : s.first_feature = 0) :
    ∃ s' acc, collectd_sensors_init env fuel s = .ok s'
      ∧ isList s'.cell s'.first_feature (layout s.brk acc)
      ∧ ∀ e ∈ acc, ∃ cd, catalogued env cd = some e := by
  have h0 : free_features fuel s.cell 0 0 = .ok (s.cell, 0) := by
    cases fuel <;> simp [free_features]
  unfold collectd_sensors_init
  rw [hempty, h0]
  simp only [Res.bind]
  by_cases hconf : env.conf_opens = false
  · refine ⟨⟨0, s.cell, s.brk⟩, [], by simp [hconf], rfl, by simp⟩
  · by_cases hinit : env.sensors_init ≠ 0
    · refine ⟨⟨0, s.cell, s.brk⟩, [], by simp [hconf, hinit], rfl, by simp⟩
    · have hinv : BuildInv s.brk ⟨0, 0, s.cell, s.brk⟩ [] :=
        ⟨rfl, rfl, fun h => absurd rfl h, rfl⟩
      obtain ⟨b, acc, hb, hbinv, hacc⟩ := chips_loop_spec_gen env env.chips _ s.brk [] hinv
      refine ⟨⟨b.first_feature, b.cell, b.brk⟩, acc, ?_, ?_, by simpa using hacc⟩
      · simp [hconf, hinit, hb]
      · simpa using hbinv.2.2.2

theorem zero_not_mem_chain_addrs (cell : Ptr → Option featurelist_t) (p : Ptr)
    (nodes : List featurelist_t) (h : isList cell p nodes) : 0 ∉ chain_addrs p nodes := by
  induction nodes generalizing p with
  | nil => simp [chain_addrs]
  | cons n rest ih =>
    obtain ⟨hp, -, hr⟩ := h
    simp only [chain_addrs, List.mem_cons, not_or]
    exact ⟨fun e => hp e.symm, ih n.next hr⟩

/-- With `first_feature` not `NULL` and `last_feature` `NULL`, a step of the enumeration
either changes nothing or writes through the `NULL` pointer `last_feature`. -/
theorem add_feature_stale {V : Type} (env : Env V) (chip : sensors_chip_name)
    (data : sensors_feature_data) (b : Build) (hfirst : b.first_feature ≠ 0)
    (hlast : b.last_feature = 0) (hnull : b.cell 0 = none) :
    add_feature env chip data b = .ok b
      ∨ add_feature env chip data b = .fault Fault.null_deref := by
  unfold add_feature
  split
  · exact Or.inl rfl
  · split
    · exact Or.inl rfl
    · split
      · exact Or.inl rfl
      · split
        · exact Or.inl rfl
        · right
          have hz : ¬ (0 : Ptr) = b.brk + 1 := fun e => Nat.succ_ne_zero _ e.symm
          simp only [hfirst, if_false, hlast, store, hz, hnull]
          rfl

theorem features_loop_stale {V : Type} (env : Env V) (chip : sensors_chip_name)
    (features : List sensors_feature_data) (b : Build) (hfirst : b.first_feature ≠ 0)
    (hlast : b.last_feature = 0) (hnull : b.cell 0 = none) :
    features_loop env chip features b = .ok b
      ∨ features_loop env chip features b = .fault Fault.null_deref := by
  induction features with
  | nil => exact Or.inl rfl
  | cons data rest ih =>
    unfold features_loop
    rcases add_feature_stale env chip data b hfirst hlast hnull with h | h
    · rw [h]
      exact ih
    · rw [h]
      exact Or.inr rfl

theorem chips_loop_stale {V : Type} (env : Env V)
    (chips : List (sensors_chip_name × List sensors_feature_data)) (b : Build)
    (hfirst : b.first_feature ≠ 0) (hlast : b.last_feature = 0) (hnull : b.cell 0 = none) :
    chips_loop env chips b = .ok b ∨ chips_loop env chips b = .fault Fault.null_deref := by
  induction chips with
  | nil => exact Or.inl rfl
  | cons cf rest ih =>
    obtain ⟨chip, features⟩ := cf
    unfold chips_loop
    rcases features_loop_stale env chip features b hfirst hlast hnull with h | h
    · rw [h]
      exact ih
    · rw [h]
      exact Or.inr rfl

/-- A rebuild over a non-empty catalog never builds a catalog: it stops at the write
through `last_feature`, which is `NULL`, or it returns with `first_feature` pointing at the
freed first node of the old list. -/
theorem init_from_nonempty {V : Type} (env : Env V) (fuel : Nat) (s : State)
    (nodes : List featurelist_t) (hlist : isList s.cell s.first_feature nodes)
    (hne : nodes ≠ []) (hfuel : nodes.length ≤ fuel) (hnull : s.cell 0 = none) :
    collectd_sensors_init env fuel s = .fault Fault.null_deref
      ∨ ∃ s', collectd_sensors_init env fuel s = .ok s'
          ∧ s'.first_feature = s.first_feature ∧ s'.first_feature ≠ 0
          ∧ s'.cell s'.first_feature = none := by
  obtain ⟨cell', h1, h2, h3⟩ :=
    free_features_spec s.cell s.first_feature nodes fuel 0 hlist hfuel
  have hp : s.first_feature ≠ 0 := by
    cases nodes with
    | nil => exact absurd rfl hne
    | cons n rest => exact hlist.1
  have hfreed : cell' s.first_feature = none := by
    apply h2
    cases nodes with
    | nil => exact absurd rfl hne
    | cons n rest => simp [chain_addrs]
  have hnull' : cell' 0 = none := by
    rw [h3 0 (zero_not_mem_chain_addrs _ _ _ hlist)]
    exact hnull
  unfold collectd_sensors_init
  rw [h1]
  simp only [Res.bind, hne, if_false]
  by_cases hconf : env.conf_opens = false
  · right
    exact ⟨⟨s.first_feature, cell', s.brk⟩, by simp [hconf], rfl, hp, hfreed⟩
  · by_cases hinit : env.sensors_init ≠ 0
    · right
      exact ⟨⟨s.first_feature, cell', s.brk⟩, by simp [hconf, hinit], rfl, hp, hfreed⟩
    · simp only [hconf, hinit, if_false]
      rcases chips_loop_stale env env.chips ⟨s.first_feature, 0, cell', s.brk⟩ hp rfl hnull'
        with h | h
      · right
        rw [h]
        exact ⟨⟨s.first_feature, cell', s.brk⟩, by simp, rfl, hp, hfreed⟩
      · left
        rw [h]
        simp

theorem rebuiltState_isList :
    isList rebuiltState.cell rebuiltState.first_feature
      [sampleNode 2, sampleNodeFan 3, sampleNodeI2c 0] := by
  decide

/-- C18 (failing input): a rebuild over an old catalog does not give the catalog of a
rebuild from the empty catalog.  A first rebuild from the empty catalog builds the three
entries of the sample provider; a second rebuild against the same provider frees them and
then writes through `last_feature`, which is `NULL`; so does a rebuild over a catalog of
one entry. -/
theorem C18_rebuild_over_old_catalog :
    collectd_sensors_init sampleEnv 0 emptyState = .ok rebuiltState
      ∧ isList rebuiltState.cell rebuiltState.first_feature
          [sampleNode 2, sampleNodeFan 3, sampleNodeI2c 0]
      ∧ collectd_sensors_init sampleEnv 3 rebuiltState = .fault Fault.null_deref
      ∧ isList oneState.cell oneState.first_feature [sampleNode 0]
      ∧ collectd_sensors_init sampleEnv 1 oneState = .fault Fault.null_deref :=
  ⟨rfl, by decide, rfl, by decide, rfl⟩

theorem goodNode_of_valid {V : Type} (env : Env V) (n : featurelist_t)
    (hv : validCategory n.type) : goodNode env n := by
  have ht := validCategory_typeInTable _ hv
  refine ⟨hv, ?_, ?_, ht, type_prefix_at_eq _ ht, ?_, chip_fullprefix_eq env n ht⟩
  · rcases hv with h | h | h <;> rw [h] <;> decide
  · rcases hv with h | h | h <;> rw [h] <;> decide
  · rcases hv with h | h | h <;> rw [h] <;> decide

/-- C19: every entry that a rebuild puts into the catalog has the category Voltage, FanSpeed
or Temperature, never Unknown and never the terminator `-1`: a rebuild from the empty
catalog always returns a well-formed catalog, and whenever a rebuild over a well-formed
catalog returns a well-formed catalog, every entry of it has such a category; the lookup
`sensor_type_prefix[type]` of the scan cycle therefore finds one of the strings of the array
for every entry, and every identifier submitted under extended naming carries the suffix
`voltage`, `fanspeed` or `temperature` of its entry, never `unknown`. -/
theorem C19_catalog_categories {V : Type} (env : Env V) (cfg : Config) (fuel fuel' : Nat)
    (s : State) (old : List featurelist_t) (hold : isList s.cell s.first_feature old)
    (hfuel : old.length ≤ fuel) (hnull : s.cell 0 = none) :
    (old = [] → ∃ s' nodes, collectd_sensors_init env fuel s = .ok s'
        ∧ isList s'.cell s'.first_feature nodes)
      ∧ ∀ s' nodes, collectd_sensors_init env fuel s = .ok s' →
          isList s'.cell s'.first_feature nodes →
          (∀ n ∈ nodes, goodNode env n)
            ∧ (recordsFit env → nodes.length < fuel' → cfg.sensor_extended_naming ≠ 0 →
              ∃ out, sensors_read env cfg fuel' s' = .ok out
                ∧ ∀ sub ∈ out, ∃ n ∈ nodes,
                    sub.inst = n.chip.prefix_ ++ "-".toList ++ bus_descriptor env n.chip
                        ++ "/".toList ++ category_suffix n.type ++ "-".toList ++ n.data.name
                      ∧ category_suffix n.type ≠ "unknown".toList) := by
  by_cases hne : old = []
  · subst hne
    have hempty : s.first_feature = 0 := hold
    obtain ⟨s0, acc, hinit, hlist, hacc⟩ := init_from_empty_gen env fuel s hempty
    refine ⟨fun _ => ⟨s0, _, hinit, hlist⟩, ?_⟩
    intro s' nodes hs' hnodes
    rw [hinit] at hs'
    simp only [Res.ok.injEq] at hs'
    subst hs'
    have hnodes_eq : nodes = layout s.brk acc := isList_unique _ _ _ _ hnodes hlist
    subst hnodes_eq
    have hfacts : ∀ n ∈ layout s.brk acc, goodNode env n := by
      intro n hn
      have hmem : n.entry ∈ acc := by
        have := List.mem_map_of_mem featurelist_t.entry hn
        rwa [layout_map_entry] at this
      obtain ⟨cd, hcd⟩ := hacc _ hmem
      exact goodNode_of_valid env n
        (classify_valid _ _ (catalogued_eq_some env cd _ hcd).2.2.1)
    refine ⟨hfacts, ?_⟩
    intro hrec hfuel' hext
    have hrun := sensors_read_loop_eq env cfg hrec s0.cell (layout s.brk acc) fuel'
      s0.first_feature hlist hfuel' (fun _ n hn => (hfacts n hn).2.2.2.1)
    refine ⟨_, hrun, ?_⟩
    intro sub hsub
    obtain ⟨n, hn, hr⟩ := List.mem_filterMap.1 hsub
    obtain ⟨-, hsubeq⟩ := (reading_eq_some_iff env cfg n sub).1 hr
    refine ⟨n, hn, ?_, (hfacts n hn).2.2.2.2.2.1⟩
    rw [hsubeq]
    simp [identifier, hext, extended_identifier]
  · refine ⟨fun h => absurd h hne, ?_⟩
    intro s' nodes hs' hnodes
    exfalso
    rcases init_from_nonempty env fuel s old hold hne hfuel hnull with h | ⟨s1, h1, -, h3, h4⟩
    · rw [h] at hs'
      simp at hs'
    · rw [h1] at hs'
      simp only [Res.ok.injEq] at hs'
      subst hs'
      cases nodes with
      | nil => exact h3 hnodes
      | cons n rest =>
        have := hnodes.2.1
        rw [h4] at this
        simp at this

theorem C19_catalog_categories_witness :
    ∃ out, sensors_read sampleEnv extendedConfig 4 rebuiltState = .ok out
      ∧ ∀ sub ∈ out, ∃ n ∈ [sampleNode 2, sampleNodeFan 3, sampleNodeI2c 0],
          sub.inst = n.chip.prefix_ ++ "-".toList ++ bus_descriptor sampleEnv n.chip
              ++ "/".toList ++ category_suffix n.type ++ "-".toList ++ n.data.name
            ∧ category_suffix n.type ≠ "unknown".toList :=
  ((C19_catalog_categories sampleEnv extendedConfig 0 4 emptyState [] rfl (by decide) rfl).2
    rebuiltState [sampleNode 2, sampleNodeFan 3, sampleNodeI2c 0] rfl rebuiltState_isList).2
    sampleEnv_recordsFit (by decide) (by decide)

/-! ## Submission and writing -/

theorem sensors_submit_some {V : Type} (env : Env V) (cfg : Config) (feat_name : CStr)
    ( chip_prefix : CStr) (value : V) (sub : Submission)
    (h : sensors_submit env cfg feat_name chip_prefix value = some sub) :
    sub.inst = chip_prefix ++ "-".toList ++ feat_name ∧ sub.inst.length < BUFSIZE
      ∧ config_get_ignored cfg sub.inst = 0 := by
  unfold sensors_submit at h
  simp only at h
  split at h
  · simp at h
  · next hlen =>
    split at h
    · simp at h
    · next hign =>
      split at h
      · simp at h
      · simp only [Option.some.injEq] at h
        subst h
        exact ⟨rfl, by simpa using hlen, by simpa using hign⟩

theorem type_prefix_at_slash (type : Int) (tp : CStr) (h : type_prefix_at type = some tp) :
    '/' ∈ tp := by
  unfold type_prefix_at at h
  split at h
  · simp at h
  · have hmem : tp ∈ sensor_type_prefix := List.get?_mem h
    have hall : ∀ t ∈ sensor_type_prefix, '/' ∈ t := by decide
    exact hall tp hmem

theorem chip_fullprefix_slash {V : Type} (env : Env V) (f : featurelist_t) (full : CStr)
    (h : chip_fullprefix env f = .ok full) : '/' ∈ full := by
  unfold chip_fullprefix at h
  split at h
  · simp at h
  · next tp htp =>
    have hs := type_prefix_at_slash _ _ htp
    split at h
    · simp only [Res.ok.injEq] at h
      subst h
      simp [hs]
    · split at h
      · simp only [Res.ok.injEq] at h
        subst h
        simp [hs]
      · simp only [Res.ok.injEq] at h
        subst h
        simp [hs]

/-- What is known of a submission made by the body of the scan loop: the filter accepted
its identifier, the identifier is shorter than `BUFSIZE`, and under extended naming it
contains a `/`. -/
theorem sensors_read_feature_some {V : Type} (env : Env V) (cfg : Config) (f : featurelist_t)
    (sub : Submission) (h : sensors_read_feature env cfg f = .ok (some sub)) :
    config_get_ignored cfg sub.inst = 0 ∧ sub.inst.length < BUFSIZE
      ∧ (cfg.sensor_extended_naming ≠ 0 → '/' ∈ sub.inst) := by
  unfold sensors_read_feature at h
  split at h
  · simp at h
  · split at h
    · next hext =>
      cases hfull : chip_fullprefix env f with
      | fault e => rw [hfull] at h; simp [Res.bind] at h
      | out_of_fuel => rw [hfull] at h; simp [Res.bind] at h
      | ok full =>
        rw [hfull] at h
        simp only [Res.bind] at h
        split at h
        · simp at h
        · simp only [Res.ok.injEq] at h
          obtain ⟨h1, h2, h3⟩ := sensors_submit_some env cfg _ _ _ sub h
          refine ⟨h3, h2, fun _ => ?_⟩
          rw [h1]
          simp [chip_fullprefix_slash env f full hfull]
    · next hext =>
      simp only [Res.ok.injEq] at h
      obtain ⟨-, h2, h3⟩ := sensors_submit_some env cfg _ _ _ sub h
      exact ⟨h3, h2, fun hne => absurd hne hext⟩

/-- Every submission of a scan cycle is made by the body of the loop for some node. -/
theorem sensors_read_loop_mem {V : Type} (env : Env V) (cfg : Config) (fuel : Nat)
    (cell : Ptr → Option featurelist_t) (p : Ptr) (out : List Submission)
    (h : sensors_read_loop env cfg fuel cell p = .ok out) :
    ∀ sub ∈ out, ∃ f, sensors_read_feature env cfg f = .ok (some sub) := by
  induction fuel generalizing p out with
  | zero =>
    cases p with
    | zero =>
      simp only [sensors_read_loop, Res.ok.injEq] at h
      subst h
      simp
    | succ q => simp [sensors_read_loop] at h
  | succ fuel ih =>
    cases p with
    | zero =>
      simp only [sensors_read_loop, Res.ok.injEq] at h
      subst h
      simp
    | succ q =>
      simp only [sensors_read_loop] at h
      cases hc : cell (q + 1) with
      | none => rw [hc] at h; simp at h
      | some feature =>
        rw [hc] at h
        simp only at h
        cases hf : sensors_read_feature env cfg feature with
        | fault e => rw [hf] at h; simp [Res.bind] at h
        | out_of_fuel => rw [hf] at h; simp [Res.bind] at h
        | ok o =>
          rw [hf] at h
          simp only [Res.bind] at h
          cases hr : sensors_read_loop env cfg fuel cell feature.next with
          | fault e => rw [hr] at h; simp at h
          | out_of_fuel => rw [hr] at h; simp at h
          | ok rest =>
            rw [hr] at h
            simp only [Res.ok.injEq] at h
            subst h
            intro sub hsub
            rcases List.mem_append.1 hsub with hs | hs
            · refine ⟨feature, ?_⟩
              rw [hf]
              cases o with
              | none => simp at hs
              | some x =>
                simp only [Option.toList_some, List.mem_singleton] at hs
                rw [hs]
            · exact ih feature.next rest hr sub hs

/-- C20: submission and writing agree: for every reading submitted by a scan cycle, the
writer called under the same configuration with the reading's identifier passes its filter
check and, under extended naming, its separator check; the identifier has at most 511
characters, and the writer hands the record over iff the identifier has at most 499
characters under legacy naming, resp. at most 496 characters under extended naming. -/
theorem C20_submit_write_agree {V : Type} (env : Env V) (cfg : Config) (fuel : Nat)
    (s : State) (out : List Submission) (sub : Submission)
    (hrun : sensors_read env cfg fuel s = .ok out) (hsub : sub ∈ out)
    (heartbeat host val : CStr) :
    isAccepted cfg sub.inst = true
      ∧ (cfg.sensor_extended_naming ≠ 0 → '/' ∈ sub.inst)
      ∧ sub.inst.length ≤ 511
      ∧ (cfg.sensor_extended_naming = 0 →
          ((sensors_write heartbeat cfg host sub.inst val).isSome = true
            ↔ sub.inst.length ≤ 499))
      ∧ (cfg.sensor_extended_naming ≠ 0 →
          ((sensors_write heartbeat cfg host sub.inst val).isSome = true
            ↔ sub.inst.length ≤ 496))
      ∧ ∀ r, sensors_write heartbeat cfg host sub.inst val = some r →
          r.host = host ∧ r.file = write_filename cfg sub.inst ∧ r.val = val := by
  obtain ⟨f, hf⟩ := sensors_read_loop_mem env cfg fuel s.cell s.first_feature out hrun sub hsub
  obtain ⟨hign, hlen, hslash⟩ := sensors_read_feature_some env cfg f sub hf
  have hB : BUFSIZE = 512 := rfl
  have hacc : isAccepted cfg sub.inst = true := by simp [isAccepted, hign]
  refine ⟨hacc, hslash, by omega, ?_, ?_, ?_⟩
  · intro hleg
    rw [sensors_write_eq]
    have hfile : (write_filename cfg sub.inst).length = sub.inst.length + 12 := by
      simp [write_filename, hleg]
    simp only [hacc, hfile, hB, hleg, ne_eq, not_true_eq_false, false_implies, and_true,
      true_and]
    constructor
    · intro h
      split at h
      · omega
      · simp at h
    · intro h
      rw [if_pos (by omega)]
      rfl
  · intro hext
    rw [sensors_write_eq]
    have hfile : (write_filename cfg sub.inst).length = sub.inst.length + 15 := by
      simp [write_filename, hext]
    simp only [hacc, hfile, hB, hslash hext, true_and, implies_true, and_true]
    constructor
    · intro h
      split at h
      · omega
      · simp at h
    · intro h
      rw [if_pos (by omega)]
      rfl
  · intro r hr
    rw [sensors_write_eq] at hr
    split at hr
    · simp only [Option.some.injEq] at hr
      subst hr
      exact ⟨rfl, rfl, rfl⟩
    · simp at hr

theorem C20_submit_write_agree_witness :
    (sensors_write "25".toList extendedConfig "host".toList
        "p-isa-002d/temperature-temp1".toList "1000:42.000".toList).isSome = true :=
  ((C20_submit_write_agree sampleEnv extendedConfig 4 threeState
      [⟨"p-isa-002d/temperature-temp1".toList, "1000:42.000".toList⟩,
        ⟨"lm75-i2c-0-48/temperature-temp".toList, "1000:42.000".toList⟩]
      ⟨"p-isa-002d/temperature-temp1".toList, "1000:42.000".toList⟩ (by decide) (by decide)
      "25".toList "host".toList "1000:42.000".toList).2.2.2.2.1 (by decide)).2 (by decide)

end Sensors
